import Mathlib

/-!
A shallow embedding of `vmsim_main.c`, the virtual memory simulator.

The simulator keeps one array of physical memory, one global register file and a
singly linked list of processes, each with its own page table.  The C code is
embedded as pure functions over explicit state:

* `int` values are `Int`; the results of `int` additions and multiplications go
  through `wrap32` (two's complement wrap-around);
* `/` and `%` on `int` are `Int.tdiv` and `Int.tmod` (truncation towards zero);
* bytes (`char`) are natural numbers, buffers are lists of bytes;
* a C operation without a defined result (an index outside an array, a copy
  outside `phy_memory`, a division by zero) makes the embedded function return
  `none`; the C functions themselves are `void` and report no error;
* the linked list of processes is the list of its processes; `free` has no effect
  on the embedded state, and the one read of a freed list node in `simulate` is
  recorded in the flag `freed_node_read`;
* the constants of the header `vmsim_main.h` are the fields of `Config`.
-/

namespace Vmsim

/-- The constants that `vmsim_main.c` takes from `vmsim_main.h`. -/
structure Config where
  PAGE_SIZE : Nat
  NUM_PAGES : Nat
  INSTRUCTION_SIZE : Nat
  MAX_REGISTERS : Nat
  PHY_MEM_SIZE : Nat
deriving DecidableEq, Repr

/-- One `char` of memory. -/
abbrev Byte := Nat

/-- The value of an `int` expression: the mathematical result reduced to 32 bits,
two's complement. -/
def wrap32 (x : Int) : Int := (x + 2147483648) % 4294967296 - 2147483648

/-- One entry of a page table: `frame_number` and the flag `valid`. -/
structure PageTableEntry where
  frame_number : Int
  valid : Int
deriving DecidableEq, Repr

/-- The process control block `Process`. -/
structure Process where
  pid : Int
  size : Int
  num_inst : Int
  pc : Int
  temp_reg_set : List Int
  page_table : List PageTableEntry
deriving DecidableEq, Repr

/-- `memcpy(buf, &phy_memory[phy_addr], count)`: the `count` bytes from `phy_addr` on;
no result when the range leaves `phy_memory`. -/
def mem_read (phy_memory : List Byte) (phy_addr : Int) (count : Nat) : Option (List Byte) :=
  if 0 ≤ phy_addr ∧ phy_addr.toNat + count ≤ phy_memory.length then
    some ((phy_memory.drop phy_addr.toNat).take count)
  else none

/-- `memcpy(&phy_memory[phy_addr], buf, count)` for `bytes`, the first `count` bytes of
`buf`: the memory with these bytes from `phy_addr` on; no result when the range leaves
`phy_memory`. -/
def mem_write (phy_memory : List Byte) (phy_addr : Int) (bytes : List Byte) :
    Option (List Byte) :=
  if 0 ≤ phy_addr ∧ phy_addr.toNat + bytes.length ≤ phy_memory.length then
    some (phy_memory.take phy_addr.toNat ++ bytes
      ++ phy_memory.drop (phy_addr.toNat + bytes.length))
  else none

/-- The condition of the scan of the page-fault handler, `/* frame is free */ 1`. -/
def frame_is_free (_i : Nat) : Bool := true

/-- The page-fault handler of `read_page` and `write_page`: the loop over
`i = 0 .. NUM_PAGES - 1` that binds the page to the first `i` passing the condition and
breaks. -/
def page_fault (cfg : Config) (page_table : List PageTableEntry) (page_number : Nat) :
    List PageTableEntry :=
  match (List.range cfg.NUM_PAGES).find? frame_is_free with
  | some i => page_table.set page_number { frame_number := (i : Int), valid := 1 }
  | none => page_table

/-- The part `read_page` and `write_page` have in common (lines 226-241 and 252-267):
page number and offset, the page fault on an invalid entry, the physical address.
Returns the process with its updated page table and `phy_addr`. -/
def translate (cfg : Config) (process : Process) (virt_addr : Int) : Option (Process × Int) :=
  if cfg.PAGE_SIZE = 0 then none else
  let page_number := Int.tdiv virt_addr cfg.PAGE_SIZE
  let offset := Int.tmod virt_addr cfg.PAGE_SIZE
  if page_number < 0 then none else
  match process.page_table[page_number.toNat]? with
  | none => none
  | some entry =>
    let page_table :=
      if entry.valid = 0 then page_fault cfg process.page_table page_number.toNat
      else process.page_table
    match page_table[page_number.toNat]? with
    | none => none
    | some entry1 =>
      let frame_number := entry1.frame_number
      let phy_addr := wrap32 (wrap32 (frame_number * cfg.PAGE_SIZE) + offset)
      some ({ process with page_table := page_table }, phy_addr)

/-- The function `read_page`: returns the process (its page table may have changed) and
the `count` bytes copied into `buf`. -/
def read_page (cfg : Config) (process : Process) (phy_memory : List Byte) (virt_addr : Int)
    (count : Nat) : Option (Process × List Byte) :=
  match translate cfg process virt_addr with
  | none => none
  | some (process1, phy_addr) =>
    match mem_read phy_memory phy_addr count with
    | none => none
    | some buf => some (process1, buf)

/-- The function `write_page`: copies the first `count` bytes of `buf`; returns the
process and the new physical memory.  No result when `buf` has fewer than `count`
bytes. -/
def write_page (cfg : Config) (process : Process) (phy_memory : List Byte) (virt_addr : Int)
    (buf : List Byte) (count : Nat) : Option (Process × List Byte) :=
  match translate cfg process virt_addr with
  | none => none
  | some (process1, phy_addr) =>
    if buf.length < count then none else
    match mem_write phy_memory phy_addr (buf.take count) with
    | none => none
    | some phy_memory1 => some (process1, phy_memory1)

/-- Modelled from the spec: the instruction semantics `op_move`, `op_add`, `op_load` and
`op_store`, which `execute` calls and whose code is not in `vmsim_main.c`.  Section 6:
"given an opcode byte and the remaining instruction bytes, performs register/memory
effects using the AddressSpace read/write primitives exposed by this core; returns
nothing".  An `OpProg` is such an effect: reads and writes of the address space of the
process through `read_page` and `write_page`, ended by assignments `register_set[i] = v`. -/
inductive OpProg where
  | done (assignments : List (Nat × Int))
  | read (virt_addr : Int) (count : Nat) (k : List Byte → OpProg)
  | write (virt_addr : Int) (buf : List Byte) (k : OpProg)

/-- Modelled from the spec: the four instruction semantics, each a function of the
instruction bytes and of the current `register_set`. -/
structure OpSemantics where
  op_move : List Byte → List Int → OpProg
  op_add : List Byte → List Int → OpProg
  op_load : List Byte → List Int → OpProg
  op_store : List Byte → List Int → OpProg

/-- The assignments `register_set[i] = v` in order; no result for an index outside the
register file. -/
def assign_registers : List (Nat × Int) → List Int → Option (List Int)
  | [], register_set => some register_set
  | (i, v) :: rest, register_set =>
    if i < register_set.length then assign_registers rest (register_set.set i v) else none

/-- Runs the effect of one instruction on the process, the register file and the
physical memory. -/
def run_op (cfg : Config) : OpProg → Process → List Int → List Byte →
    Option (Process × List Int × List Byte)
  | .done assignments, process, register_set, phy_memory =>
    match assign_registers assignments register_set with
    | none => none
    | some register_set1 => some (process, register_set1, phy_memory)
  | .read virt_addr count k, process, register_set, phy_memory =>
    match read_page cfg process phy_memory virt_addr count with
    | none => none
    | some (process1, buf) => run_op cfg (k buf) process1 register_set phy_memory
  | .write virt_addr buf k, process, register_set, phy_memory =>
    match write_page cfg process phy_memory virt_addr buf buf.length with
    | none => none
    | some (process1, phy_memory1) => run_op cfg k process1 register_set phy_memory1

/-- The global variables `phy_memory`, `register_set`, `clock` and `process_list` (the
linked list as the list of its processes, head first). -/
structure State where
  phy_memory : List Byte
  register_set : List Int
  clock : Int
  process_list : List Process
deriving DecidableEq, Repr

/-- The loops `for (i = 0; i < MAX_REGISTERS; i++) dst[i] = src[i]`. -/
def copy_registers (n : Nat) (src dst : List Int) : List Int := src.take n ++ dst.drop n

/-- The C function of line 47 that sets up the globals (its name is a keyword of Lean,
hence the suffix): `uninit` is the content `malloc` leaves in the
`PHY_MEM_SIZE` bytes of physical memory; `clock` is a global and starts at 0. -/
def initialize_globals (cfg : Config) (uninit : Nat → Byte) : State :=
  { phy_memory := (List.range cfg.PHY_MEM_SIZE).map uninit
    register_set := List.replicate cfg.MAX_REGISTERS 0
    clock := 0
    process_list := [] }

/-- The `switch (opcode)` of `execute`: `M`, `A`, `L`, `S` (77, 65, 76, 83) go to the
instruction semantics, any other opcode is only printed. -/
def dispatch (cfg : Config) (ops : OpSemantics) (opcode : Byte) (instruction : List Byte)
    (process : Process) (register_set : List Int) (phy_memory : List Byte) :
    Option (Process × List Int × List Byte) :=
  if opcode = 77 then
    run_op cfg (ops.op_move instruction register_set) process register_set phy_memory
  else if opcode = 65 then
    run_op cfg (ops.op_add instruction register_set) process register_set phy_memory
  else if opcode = 76 then
    run_op cfg (ops.op_load instruction register_set) process register_set phy_memory
  else if opcode = 83 then
    run_op cfg (ops.op_store instruction register_set) process register_set phy_memory
  else some (process, register_set, phy_memory)

/-- The function `execute`: returns its `int` result, the process and the globals after
the step. -/
def execute (cfg : Config) (ops : OpSemantics) (process : Process) (s : State) :
    Option (Int × Process × State) :=
  let register_set := copy_registers cfg.MAX_REGISTERS process.temp_reg_set s.register_set
  match read_page cfg process s.phy_memory process.pc cfg.INSTRUCTION_SIZE with
  | none => none
  | some (process1, instruction) =>
    let process2 := { process1 with pc := wrap32 (process1.pc + cfg.INSTRUCTION_SIZE) }
    match instruction.head? with
    | none => none
    | some opcode =>
      match dispatch cfg ops opcode instruction process2 register_set s.phy_memory with
      | none => none
      | some (process3, register_set1, phy_memory1) =>
        let process4 := { process3 with
          temp_reg_set := copy_registers cfg.MAX_REGISTERS register_set1 process3.temp_reg_set }
        let finish : Int :=
          if wrap32 (process4.num_inst * cfg.INSTRUCTION_SIZE) ≤ process4.pc then 1 else 0
        some (finish, process4,
          { s with register_set := register_set1, phy_memory := phy_memory1 })

/-- A process image file: the two numbers of its first line and the instruction lines
that `fscanf` reads (each without its terminating NUL). -/
structure Image where
  size : Int
  num_inst : Int
  lines : List (List Byte)
deriving DecidableEq, Repr

/-- The C function `strlen`: the number of bytes before the first NUL. -/
def strlen (str : List Byte) : Nat := (str.takeWhile (fun b => b ≠ 0)).length

/-- The instruction loop of `load` (lines 90-98) from index `i` on, `n` iterations:
`instruction` is the content of the buffer, `none` while it has never been filled. -/
def load_loop (cfg : Config) (lines : List (List Byte)) :
    Nat → Nat → Process → List Byte → Option (List Byte) → Option (Process × List Byte)
  | 0, _, process, phy_memory, _ => some (process, phy_memory)
  | n + 1, i, process, phy_memory, instruction =>
    let instruction1 :=
      match lines[i]? with
      | some line => some (line ++ [0])
      | none => instruction
    match instruction1 with
    | none => none
    | some str =>
      if cfg.INSTRUCTION_SIZE < str.length then none else
      let virt_addr := wrap32 ((i : Int) * cfg.INSTRUCTION_SIZE)
      match write_page cfg process phy_memory virt_addr str (strlen str + 1) with
      | none => none
      | some (process1, phy_memory1) =>
        load_loop cfg lines n (i + 1) process1 phy_memory1 (some str)

/-- The process that `load` builds before its instruction loop (lines 72-88): pid, size
and instruction count, pc = 0, a page table of
`num_pages = (size + PAGE_SIZE - 1) / PAGE_SIZE` entries, all with frame_number = -1 and
valid = 0, and registers 0. -/
def load_new_process (cfg : Config) (img : Image) (pid : Int) : Process :=
  { pid := pid
    size := img.size
    num_inst := img.num_inst
    pc := 0
    temp_reg_set := List.replicate cfg.MAX_REGISTERS 0
    page_table := List.replicate
      (Int.tdiv (wrap32 (wrap32 (img.size + cfg.PAGE_SIZE) - 1)) cfg.PAGE_SIZE).toNat
      { frame_number := -1, valid := 0 } }

/-- The function `load` for an opened image file: builds the process
(`load_new_process`), stores its instructions and appends it to the process list. -/
def load (cfg : Config) (img : Image) (pid : Int) (s : State) : Option State :=
  if cfg.PAGE_SIZE = 0 then none else
  match load_loop cfg img.lines img.num_inst.toNat 0 (load_new_process cfg img pid)
      s.phy_memory none with
  | none => none
  | some (process1, phy_memory1) =>
    some { s with phy_memory := phy_memory1, process_list := s.process_list ++ [process1] }

/-- The reclaim loop of `simulate` (lines 143-146):
`for (i = 0; i < process->size / PAGE_SIZE; i++)` resets entry `i`. -/
def reclaim (cfg : Config) (process : Process) : Option Process :=
  if cfg.PAGE_SIZE = 0 then none else
  let n := (Int.tdiv process.size cfg.PAGE_SIZE).toNat
  if process.page_table.length < n then none else
  some { process with
    page_table := (List.range n).foldl
      (fun page_table i => page_table.set i { frame_number := -1, valid := 0 })
      process.page_table }

/-- One call of `execute` made by `simulate`: the pid and the value returned. -/
structure Event where
  pid : Int
  finish : Int
deriving DecidableEq, Repr

/-- The state of `simulate` with what it leaves behind: the calls of `execute` so far,
the processes it retired, each as it was when `free` was called on it, and whether the
run has read a list node after freeing it (see `simulate_inner`). -/
structure Sim where
  state : State
  events : List Event
  retired : List Process
  freed_node_read : Bool
deriving DecidableEq, Repr

/-- The start of `simulate` in the globals `s`: nothing executed, nothing retired. -/
def Sim.start (s : State) : Sim :=
  { state := s, events := [], retired := [], freed_node_read := false }

/-- The inner loop of `simulate` (lines 136-167).  `todo` are the nodes from
`current_process` on, `before` the processes of the nodes in front of it, so that
`process_list` is `before ++ todo`.  A retired process is unlinked, which leaves
`before ++ rest`, and the loop goes on with `current_process->next`, the node that
followed it.  When the retired node is not the head of the list, line 159 has freed it
before line 165 reads its `next` field: the embedding takes the value the field had when
the node was unlinked (the program never overwrites it) and records the read in
`freed_node_read`. -/
def simulate_inner (cfg : Config) (ops : OpSemantics) :
    List Process → List Process → Sim → Option Sim
  | [], _, sim => some sim
  | process :: rest, before, sim =>
    match execute cfg ops process sim.state with
    | none => none
    | some (finish, process1, s1) =>
      let events := sim.events ++ [{ pid := process.pid, finish := finish }]
      if finish ≠ 0 then
        match reclaim cfg process1 with
        | none => none
        | some process2 =>
          simulate_inner cfg ops rest before
            { state := { s1 with process_list := before ++ rest, clock := wrap32 (s1.clock + 1) }
              events := events
              retired := sim.retired ++ [process2]
              freed_node_read := sim.freed_node_read || !before.isEmpty }
      else
        simulate_inner cfg ops rest (before ++ [process1])
          { state := { s1 with process_list := before ++ process1 :: rest,
                               clock := wrap32 (s1.clock + 1) }
            events := events
            retired := sim.retired
            freed_node_read := sim.freed_node_read }

/-- The function `simulate`: at most `fuel` passes of the outer loop
`while (process_list != NULL)`; no result when the list is not empty after them. -/
def simulate (cfg : Config) (ops : OpSemantics) : Nat → Sim → Option Sim
  | 0, sim => if sim.state.process_list = [] then some sim else none
  | fuel + 1, sim =>
    if sim.state.process_list = [] then some sim else
    match simulate_inner cfg ops sim.state.process_list [] sim with
    | none => none
    | some sim1 => simulate cfg ops fuel sim1

/-- `n` calls of `execute` on one process, the globals before each call taken from
`states` (other processes may run between two calls): the values returned, in order, and
the process after the last call. -/
def execute_calls (cfg : Config) (ops : OpSemantics) :
    List State → Process → Option (List Int × Process)
  | [], process => some ([], process)
  | s :: rest, process =>
    match execute cfg ops process s with
    | none => none
    | some (finish, process1, _) =>
      match execute_calls cfg ops rest process1 with
      | none => none
      | some (results, process2) => some (finish :: results, process2)

/-- The frame numbers of all valid page table entries of all processes. -/
def valid_frames (s : State) : List Int :=
  (s.process_list.map fun p =>
    (p.page_table.filter fun e => e.valid ≠ 0).map fun e => e.frame_number).flatten

/-- Frame exclusivity: no two valid page table entries hold the same frame number. -/
abbrev FrameExclusive (s : State) : Prop := (valid_frames s).Nodup

/-- The entry of page `page_number` set to valid = 0 and frame_number = -1. -/
def invalidate (process : Process) (page_number : Nat) : Process :=
  { process with
    page_table := process.page_table.set page_number { frame_number := -1, valid := 0 } }

/-- The states reachable from the initial globals by `load`, by `read_page`, `write_page`
and `execute` on a process of the list, by one iteration of the inner loop of `simulate`
(with or without retirement) and by a whole run of `simulate`. -/
inductive Reachable (cfg : Config) (ops : OpSemantics) : State → Prop
  | init (uninit : Nat → Byte) : Reachable cfg ops (initialize_globals cfg uninit)
  | load (s s1 : State) (img : Image) (pid : Int) :
      Reachable cfg ops s → load cfg img pid s = some s1 → Reachable cfg ops s1
  | read_page (s : State) (before rest : List Process) (p p1 : Process) (v : Int)
      (count : Nat) (out : List Byte) :
      Reachable cfg ops s → s.process_list = before ++ p :: rest →
      read_page cfg p s.phy_memory v count = some (p1, out) →
      Reachable cfg ops { s with process_list := before ++ p1 :: rest }
  | write_page (s : State) (before rest : List Process) (p p1 : Process) (v : Int)
      (buf : List Byte) (count : Nat) (mem1 : List Byte) :
      Reachable cfg ops s → s.process_list = before ++ p :: rest →
      write_page cfg p s.phy_memory v buf count = some (p1, mem1) →
      Reachable cfg ops { s with phy_memory := mem1, process_list := before ++ p1 :: rest }
  | execute (s s1 : State) (before rest : List Process) (p p1 : Process) (finish : Int) :
      Reachable cfg ops s → s.process_list = before ++ p :: rest →
      execute cfg ops p s = some (finish, p1, s1) →
      Reachable cfg ops { s1 with process_list := before ++ p1 :: rest }
  | step (s s1 : State) (before rest : List Process) (p p1 : Process) :
      Reachable cfg ops s → s.process_list = before ++ p :: rest →
      execute cfg ops p s = some (0, p1, s1) →
      Reachable cfg ops
        { s1 with process_list := before ++ p1 :: rest, clock := wrap32 (s1.clock + 1) }
  | retire (s s1 : State) (before rest : List Process) (p p1 : Process) (finish : Int) :
      Reachable cfg ops s → s.process_list = before ++ p :: rest →
      execute cfg ops p s = some (finish, p1, s1) → finish ≠ 0 →
      Reachable cfg ops
        { s1 with process_list := before ++ rest, clock := wrap32 (s1.clock + 1) }
  | simulate (sim sim1 : Sim) (fuel : Nat) :
      Reachable cfg ops sim.state → simulate cfg ops fuel sim = some sim1 →
      Reachable cfg ops sim1.state

/-- A configuration for the examples: pages of 16 bytes, 4 frames, instructions of 8
bytes, 2 registers, 64 bytes of physical memory. -/
def cfgT : Config :=
  { PAGE_SIZE := 16, NUM_PAGES := 4, INSTRUCTION_SIZE := 8, MAX_REGISTERS := 2,
    PHY_MEM_SIZE := 64 }

/-- Instruction semantics for the examples: `M` sets register 0 to 5, `A` adds register 0
to register 1, `L` loads the byte at address 8 into register 0, `S` stores the low byte
of register 0 at address 8. -/
def opsT : OpSemantics :=
  { op_move := fun _ _ => .done [(0, 5)]
    op_add := fun _ r => .done [(1, r.getD 0 0 + r.getD 1 0)]
    op_load := fun _ _ => .read 8 1 (fun b => .done [(0, ((b.getD 0 0 : Nat) : Int))])
    op_store := fun _ r => .write 8 [(r.getD 0 0).toNat % 256] (.done []) }

/-- An image of 16 bytes with the two instructions `M 1` and `A`. -/
def imgA : Image := { size := 16, num_inst := 2, lines := [[77, 32, 49], [65]] }

/-- An image of 8 bytes with the one instruction `S`. -/
def imgB : Image := { size := 8, num_inst := 1, lines := [[83]] }

/-- An image of 16 bytes without instructions. -/
def imgEmpty : Image := { size := 16, num_inst := 0, lines := [] }

/-- The globals after the initialisation, physical memory all zero. -/
def stateT : State := initialize_globals cfgT (fun _ => 0)

/-- All fields but the page table are the same in `p` and `p1`, and the page tables have
the same length. -/
def SameButPageTable (p p1 : Process) : Prop :=
  p1.pid = p.pid ∧ p1.size = p.size ∧ p1.num_inst = p.num_inst ∧ p1.pc = p.pc ∧
    p1.temp_reg_set = p.temp_reg_set ∧ p1.page_table.length = p.page_table.length

/-- A process with one page, not yet touched. -/
def procT : Process :=
  { pid := 0, size := 16, num_inst := 1, pc := 0, temp_reg_set := [0, 0],
    page_table := [{ frame_number := -1, valid := 0 }] }

/-- The process of `imgA` as `load` leaves it. -/
def procA : Process :=
  { pid := 0, size := 16, num_inst := 2, pc := 0, temp_reg_set := [0, 0],
    page_table := [{ frame_number := 0, valid := 1 }] }

/-- The process of `imgB` as `load` leaves it. -/
def procB : Process :=
  { pid := 1, size := 8, num_inst := 1, pc := 0, temp_reg_set := [0, 0],
    page_table := [{ frame_number := 0, valid := 1 }] }

/-- The globals after `imgA` and `imgB` have been loaded from `stateT`: the instruction
of `imgB` has overwritten the first instruction of `imgA` in frame 0. -/
def stateAB : State :=
  { phy_memory := [83, 0, 49, 0, 0, 0, 0, 0, 65] ++ List.replicate 55 0
    register_set := [0, 0]
    clock := 0
    process_list := [procA, procB] }

/-- The globals after `imgB` (as pid 0) and then `imgA` (as pid 1) have been loaded from
`stateT`. -/
def stateBA : State :=
  { phy_memory := [77, 32, 49, 0, 0, 0, 0, 0, 65] ++ List.replicate 55 0
    register_set := [0, 0]
    clock := 0
    process_list := [{ procB with pid := 0 }, { procA with pid := 1 }] }

/-- The frame an access to a page with entry `e` goes to: the frame of a valid entry,
frame 0 (the first frame scanned by the page-fault handler) for an invalid one. -/
def frame_after_fault (e : PageTableEntry) : Int :=
  if e.valid = 0 then 0 else e.frame_number

/-- A touch of a page: a read of `count` bytes or a write of the first `count` bytes of
`buf`. -/
inductive Access where
  | read (count : Nat)
  | write (buf : List Byte) (count : Nat)

/-- The process and the physical memory after the access `acc` at `virt_addr`, through
`read_page` or `write_page`. -/
def touch (cfg : Config) (process : Process) (phy_memory : List Byte) (virt_addr : Int) :
    Access → Option (Process × List Byte)
  | .read count =>
    match read_page cfg process phy_memory virt_addr count with
    | none => none
    | some (process1, _) => some (process1, phy_memory)
  | .write buf count => write_page cfg process phy_memory virt_addr buf count

/-- What holds of every page table entry the code produces: a valid entry is bound to
frame 0, and there is a frame 0. -/
def EntryOk (cfg : Config) (e : PageTableEntry) : Prop :=
  e.valid ≠ 0 → e.frame_number = 0 ∧ 0 < cfg.NUM_PAGES

/-- All entries of a page table satisfy `EntryOk`. -/
def TableOk (cfg : Config) (page_table : List PageTableEntry) : Prop :=
  ∀ e ∈ page_table, EntryOk cfg e

/-- All page tables of the process list satisfy `TableOk`. -/
def StateOk (cfg : Config) (s : State) : Prop :=
  ∀ p ∈ s.process_list, TableOk cfg p.page_table

/-- A configuration with a pool of two frames. -/
def cfgTwoFrames : Config :=
  { PAGE_SIZE := 16, NUM_PAGES := 2, INSTRUCTION_SIZE := 8, MAX_REGISTERS := 2,
    PHY_MEM_SIZE := 32 }

/-- An image of one page with the one instruction `M`. -/
def imgOnePage : Image := { size := 16, num_inst := 1, lines := [[77]] }

/-- A process of one page that has not touched it. -/
def untouched (pid : Int) : Process :=
  { pid := pid, size := 16, num_inst := 1, pc := 0, temp_reg_set := [0, 0],
    page_table := [{ frame_number := -1, valid := 0 }] }

/-- The process `untouched pid` after a touch of its page. -/
def touched (pid : Int) : Process :=
  { pid := pid, size := 16, num_inst := 1, pc := 0, temp_reg_set := [0, 0],
    page_table := [{ frame_number := 0, valid := 1 }] }

/-- The entry that the page-fault handler writes: frame 0, valid. -/
def fault_entry : PageTableEntry := { frame_number := 0, valid := 1 }

/-- The globals after `imgA` alone has been loaded from `stateT`. -/
def stateA : State :=
  { phy_memory := [77, 32, 49, 0, 0, 0, 0, 0, 65] ++ List.replicate 55 0
    register_set := [0, 0]
    clock := 0
    process_list := [procA] }

theorem wrap32_of_range {x : Int} (h0 : -2147483648 ≤ x) (h1 : x < 2147483648) :
    wrap32 x = x := by
  unfold wrap32
  omega

theorem page_fault_eq (cfg : Config) (pt : List PageTableEntry) (n : Nat)
    (h : 0 < cfg.NUM_PAGES) :
    page_fault cfg pt n = pt.set n { frame_number := 0, valid := 1 } := by
  unfold page_fault
  obtain ⟨k, hk⟩ := Nat.exists_eq_succ_of_ne_zero (Nat.pos_iff_ne_zero.mp h)
  rw [hk, List.range_succ_eq_map]
  simp [frame_is_free]

theorem page_fault_length (cfg : Config) (pt : List PageTableEntry) (n : Nat) :
    (page_fault cfg pt n).length = pt.length := by
  unfold page_fault
  split <;> simp

theorem translate_some {cfg : Config} {p p1 : Process} {v a : Int}
    (h : translate cfg p v = some (p1, a)) :
    cfg.PAGE_SIZE ≠ 0 ∧ 0 ≤ Int.tdiv v cfg.PAGE_SIZE ∧
    ∃ e e1, p.page_table[(Int.tdiv v cfg.PAGE_SIZE).toNat]? = some e ∧
      p1 = { p with page_table :=
              if e.valid = 0 then page_fault cfg p.page_table (Int.tdiv v cfg.PAGE_SIZE).toNat
              else p.page_table } ∧
      p1.page_table[(Int.tdiv v cfg.PAGE_SIZE).toNat]? = some e1 ∧
      a = wrap32 (wrap32 (e1.frame_number * cfg.PAGE_SIZE) + Int.tmod v cfg.PAGE_SIZE) := by
  unfold translate at h
  split at h
  · cases h
  · rename_i hps
    simp only at h
    split at h
    · cases h
    · rename_i hpn
      split at h
      · cases h
      · rename_i e he
        split at h
        · cases h
        · rename_i e1 he1
          simp only [Option.some.injEq, Prod.mk.injEq] at h
          refine ⟨hps, by omega, e, e1, he, h.1.symm, ?_, h.2.symm⟩
          rw [← h.1]
          exact he1

theorem translate_of_entry {cfg : Config} {p : Process} {v : Int} {e e1 : PageTableEntry}
    (hps : cfg.PAGE_SIZE ≠ 0) (hpn : 0 ≤ Int.tdiv v cfg.PAGE_SIZE)
    (he : p.page_table[(Int.tdiv v cfg.PAGE_SIZE).toNat]? = some e)
    (he1 : (if e.valid = 0 then page_fault cfg p.page_table (Int.tdiv v cfg.PAGE_SIZE).toNat
              else p.page_table)[(Int.tdiv v cfg.PAGE_SIZE).toNat]? = some e1) :
    translate cfg p v = some
      ({ p with page_table :=
              if e.valid = 0 then page_fault cfg p.page_table (Int.tdiv v cfg.PAGE_SIZE).toNat
              else p.page_table },
        wrap32 (wrap32 (e1.frame_number * cfg.PAGE_SIZE) + Int.tmod v cfg.PAGE_SIZE)) := by
  unfold translate
  rw [if_neg hps]
  simp only
  rw [if_neg (by omega), he]
  simp only
  rw [he1]

/-- A valid page is translated without a change of the page table. -/
theorem translate_valid {cfg : Config} {p : Process} {v : Int} {e : PageTableEntry}
    (hps : cfg.PAGE_SIZE ≠ 0) (hpn : 0 ≤ Int.tdiv v cfg.PAGE_SIZE)
    (he : p.page_table[(Int.tdiv v cfg.PAGE_SIZE).toNat]? = some e) (hv : e.valid ≠ 0) :
    translate cfg p v = some
      (p, wrap32 (wrap32 (e.frame_number * cfg.PAGE_SIZE) + Int.tmod v cfg.PAGE_SIZE)) := by
  have he1 : (if e.valid = 0 then page_fault cfg p.page_table (Int.tdiv v cfg.PAGE_SIZE).toNat
      else p.page_table)[(Int.tdiv v cfg.PAGE_SIZE).toNat]? = some e := by
    rw [if_neg hv]; exact he
  have h := translate_of_entry hps hpn he he1
  rw [h, if_neg hv]

/-- An invalid page is bound to frame 0 when there is at least one frame. -/
theorem translate_invalid {cfg : Config} {p : Process} {v : Int} {e : PageTableEntry}
    (hps : cfg.PAGE_SIZE ≠ 0) (hnp : 0 < cfg.NUM_PAGES) (hpn : 0 ≤ Int.tdiv v cfg.PAGE_SIZE)
    (he : p.page_table[(Int.tdiv v cfg.PAGE_SIZE).toNat]? = some e) (hv : e.valid = 0) :
    translate cfg p v = some
      ({ p with page_table :=
          p.page_table.set (Int.tdiv v cfg.PAGE_SIZE).toNat { frame_number := 0, valid := 1 } },
        wrap32 (wrap32 (0 * cfg.PAGE_SIZE) + Int.tmod v cfg.PAGE_SIZE)) := by
  have hlt : (Int.tdiv v cfg.PAGE_SIZE).toNat < p.page_table.length := by
    rcases List.getElem?_eq_some_iff.mp he with ⟨h, -⟩
    exact h
  have he1 : (if e.valid = 0 then page_fault cfg p.page_table (Int.tdiv v cfg.PAGE_SIZE).toNat
      else p.page_table)[(Int.tdiv v cfg.PAGE_SIZE).toNat]?
      = some { frame_number := 0, valid := 1 } := by
    rw [if_pos hv, page_fault_eq cfg _ _ hnp, List.getElem?_set_self hlt]
  have h := translate_of_entry hps hpn he he1
  rw [h, if_pos hv, page_fault_eq cfg _ _ hnp]

/-- Translating the same address again gives the same physical address and changes
nothing. -/
theorem translate_stable {cfg : Config} {p p1 : Process} {v a : Int}
    (h : translate cfg p v = some (p1, a)) : translate cfg p1 v = some (p1, a) := by
  obtain ⟨hps, hpn, e, e1, he, hp1, he1, ha⟩ := translate_some h
  by_cases hv : e.valid = 0
  · by_cases hnp : 0 < cfg.NUM_PAGES
    · have h2 := translate_invalid hps hnp hpn he hv
      rw [h] at h2
      simp only [Option.some.injEq, Prod.mk.injEq] at h2
      have hlt : (Int.tdiv v cfg.PAGE_SIZE).toNat < p.page_table.length := by
        rcases List.getElem?_eq_some_iff.mp he with ⟨h, -⟩
        exact h
      have he2 : p1.page_table[(Int.tdiv v cfg.PAGE_SIZE).toNat]?
          = some { frame_number := 0, valid := 1 } := by
        rw [h2.1]
        exact List.getElem?_set_self hlt
      have h3 := translate_valid hps hpn he2 (by decide)
      rw [h3, h2.2]
    · have h0 : cfg.NUM_PAGES = 0 := by omega
      have hpf : page_fault cfg p.page_table (Int.tdiv v cfg.PAGE_SIZE).toNat = p.page_table := by
        unfold page_fault
        rw [h0]
        rfl
      have hpp : p1 = p := by
        rw [hp1, hpf]
        simp
      rw [hpp]
      rw [hpp] at h
      exact h
  · have hpp : p1 = p := by
      rw [hp1, if_neg hv]
    rw [hpp]
    rw [hpp] at h
    exact h

theorem mem_write_some {mem mem1 : List Byte} {a : Int} {bytes : List Byte}
    (h : mem_write mem a bytes = some mem1) :
    0 ≤ a ∧ a.toNat + bytes.length ≤ mem.length ∧
      mem1 = mem.take a.toNat ++ bytes ++ mem.drop (a.toNat + bytes.length) := by
  unfold mem_write at h
  split at h
  · rename_i hc
    simp only [Option.some.injEq] at h
    exact ⟨hc.1, hc.2, h.symm⟩
  · cases h

theorem mem_write_length {mem mem1 : List Byte} {a : Int} {bytes : List Byte}
    (h : mem_write mem a bytes = some mem1) : mem1.length = mem.length := by
  obtain ⟨-, hle, rfl⟩ := mem_write_some h
  simp only [List.length_append, List.length_take, List.length_drop]
  omega

/-- The bytes just written are the bytes read at the same physical address. -/
theorem mem_read_after_write {mem mem1 : List Byte} {a : Int} {bytes : List Byte}
    (h : mem_write mem a bytes = some mem1) : mem_read mem1 a bytes.length = some bytes := by
  have hlen := mem_write_length h
  obtain ⟨h0, hle, rfl⟩ := mem_write_some h
  unfold mem_read
  rw [if_pos ⟨h0, by rw [hlen]; exact hle⟩]
  have htl : (mem.take a.toNat).length = a.toNat := by
    rw [List.length_take]
    omega
  rw [List.append_assoc, List.drop_append_of_le_length (by omega)]
  rw [List.drop_of_length_le (by omega), List.nil_append, List.take_left']
  rfl

/-- Reading back what `write_page` has just written returns the written bytes, and the
read changes neither the page table nor the memory. -/
theorem read_page_after_write_page {cfg : Config} {p p1 : Process} {mem mem1 : List Byte}
    {v : Int} {buf : List Byte} {count : Nat}
    (h : write_page cfg p mem v buf count = some (p1, mem1)) :
    read_page cfg p1 mem1 v count = some (p1, buf.take count) := by
  unfold write_page at h
  split at h
  · cases h
  · rename_i p2 a htr
    split at h
    · cases h
    · rename_i hcount
      split at h
      · cases h
      · rename_i mem2 hw
        simp only [Option.some.injEq, Prod.mk.injEq] at h
        obtain ⟨rfl, rfl⟩ := h
        unfold read_page
        rw [translate_stable htr]
        simp only
        have hr := mem_read_after_write hw
        rw [List.length_take, Nat.min_eq_left (by omega)] at hr
        rw [hr]

theorem toNat_add_le {x : Int} {len n : Nat} (h0 : 0 ≤ x) (h : x + len ≤ (n : Int)) :
    x.toNat + len ≤ n := by
  omega

/-- The physical address of offset `off` in frame `f` is computed without overflow and
the `len` bytes from it on stay inside the frame pool. -/
theorem phys_addr_in_pool {f off : Int} {PS NP len : Nat}
    (hf0 : 0 ≤ f) (hf : f < NP) (ho0 : 0 ≤ off) (hfit : off + len ≤ PS)
    (hint : NP * PS < 2147483648) :
    wrap32 (wrap32 (f * PS) + off) = f * PS + off ∧ 0 ≤ f * PS + off ∧
      (f * PS + off).toNat + len ≤ NP * PS := by
  have h1 : f * (PS : Int) ≤ ((NP : Int) - 1) * PS :=
    Int.mul_le_mul_of_nonneg_right (by omega) (by omega)
  have h2 : 0 ≤ f * (PS : Int) := Int.mul_nonneg hf0 (by omega)
  have h3 : ((NP : Int) - 1) * PS = NP * PS - PS := by ring
  have h4 : ((NP * PS : Nat) : Int) < 2147483648 := by exact_mod_cast hint
  have h6 : ((NP * PS : Nat) : Int) = (NP : Int) * (PS : Int) := Nat.cast_mul _ _
  have h5 : wrap32 (f * PS) = f * PS := wrap32_of_range (by omega) (by omega)
  rw [h5]
  refine ⟨wrap32_of_range (by omega) (by omega), by omega, ?_⟩
  apply toNat_add_le (by omega)
  omega

theorem write_page_of_translate {cfg : Config} {p p1 : Process} {mem : List Byte} {v a : Int}
    {buf : List Byte} {count : Nat} (htr : translate cfg p v = some (p1, a))
    (hcount : count ≤ buf.length) (h0 : 0 ≤ a) (hle : a.toNat + count ≤ mem.length) :
    write_page cfg p mem v buf count = some
      (p1, mem.take a.toNat ++ buf.take count ++ mem.drop (a.toNat + count)) := by
  unfold write_page
  rw [htr]
  simp only
  rw [if_neg (by omega)]
  unfold mem_write
  have hl : (buf.take count).length = count := by
    rw [List.length_take]
    omega
  rw [hl, if_pos ⟨h0, hle⟩]

theorem read_page_of_translate {cfg : Config} {p p1 : Process} {mem : List Byte} {v a : Int}
    {count : Nat} (htr : translate cfg p v = some (p1, a))
    (h0 : 0 ≤ a) (hle : a.toNat + count ≤ mem.length) :
    read_page cfg p mem v count = some (p1, (mem.drop a.toNat).take count) := by
  unfold read_page
  rw [htr]
  simp only
  unfold mem_read
  rw [if_pos ⟨h0, hle⟩]

/-- For an address inside the page table whose page, when valid, is bound to a frame of
the pool, the translation is defined and the `len` bytes of the access lie in the
pool. -/
theorem translate_defined {cfg : Config} {p : Process} {v : Int} {len : Nat}
    (hps : 0 < cfg.PAGE_SIZE) (hnp : 0 < cfg.NUM_PAGES)
    (hint : cfg.NUM_PAGES * cfg.PAGE_SIZE < 2147483648)
    (hframes : ∀ e ∈ p.page_table, e.valid ≠ 0 →
      0 ≤ e.frame_number ∧ e.frame_number < cfg.NUM_PAGES)
    (hv0 : 0 ≤ v) (hv : (Int.tdiv v cfg.PAGE_SIZE).toNat < p.page_table.length)
    (hfit : (Int.tmod v cfg.PAGE_SIZE).toNat + len ≤ cfg.PAGE_SIZE) :
    ∃ p1 a, translate cfg p v = some (p1, a) ∧ 0 ≤ a ∧
      a.toNat + len ≤ cfg.NUM_PAGES * cfg.PAGE_SIZE := by
  have hps0 : cfg.PAGE_SIZE ≠ 0 := Nat.pos_iff_ne_zero.mp hps
  have hpn : 0 ≤ Int.tdiv v cfg.PAGE_SIZE := Int.tdiv_nonneg hv0 (Int.ofNat_nonneg _)
  have ho0 : 0 ≤ Int.tmod v cfg.PAGE_SIZE := Int.tmod_nonneg _ hv0
  have hfit2 : Int.tmod v cfg.PAGE_SIZE + len ≤ cfg.PAGE_SIZE := by
    have h := Int.toNat_of_nonneg ho0
    generalize Int.tmod v cfg.PAGE_SIZE = o at h hfit ⊢
    clear hframes hv hv0 hpn ho0
    omega
  obtain ⟨e, he⟩ : ∃ e, p.page_table[(Int.tdiv v cfg.PAGE_SIZE).toNat]? = some e :=
    ⟨_, List.getElem?_eq_getElem hv⟩
  by_cases hval : e.valid = 0
  · have h := translate_invalid hps0 hnp hpn he hval
    have hnp2 : (0 : Int) < (cfg.NUM_PAGES : Int) := Int.ofNat_lt.mpr hnp
    obtain ⟨h1, h2, h3⟩ := phys_addr_in_pool (le_refl (0 : Int)) hnp2 ho0 hfit2 hint
    refine ⟨_, _, h, ?_, ?_⟩
    · rw [h1]; exact h2
    · rw [h1]; exact h3
  · have h := translate_valid hps0 hpn he hval
    obtain ⟨hf0, hf⟩ := hframes e (List.getElem?_mem he) hval
    obtain ⟨h1, h2, h3⟩ := phys_addr_in_pool hf0 hf ho0 hfit2 hint
    refine ⟨_, _, h, ?_, ?_⟩
    · rw [h1]; exact h2
    · rw [h1]; exact h3

/-! ## Steps of a process and the scheduler -/

theorem SameButPageTable.refl (p : Process) : SameButPageTable p p :=
  ⟨rfl, rfl, rfl, rfl, rfl, rfl⟩

theorem SameButPageTable.trans {p p1 p2 : Process} (h1 : SameButPageTable p p1)
    (h2 : SameButPageTable p1 p2) : SameButPageTable p p2 := by
  unfold SameButPageTable at h1 h2 ⊢
  refine ⟨?_, ?_, ?_, ?_, ?_, ?_⟩
  · rw [h2.1, h1.1]
  · rw [h2.2.1, h1.2.1]
  · rw [h2.2.2.1, h1.2.2.1]
  · rw [h2.2.2.2.1, h1.2.2.2.1]
  · rw [h2.2.2.2.2.1, h1.2.2.2.2.1]
  · rw [h2.2.2.2.2.2, h1.2.2.2.2.2]

theorem translate_same {cfg : Config} {p p1 : Process} {v a : Int}
    (h : translate cfg p v = some (p1, a)) : SameButPageTable p p1 := by
  obtain ⟨-, -, e, e1, -, hp1, -, -⟩ := translate_some h
  subst hp1
  refine ⟨rfl, rfl, rfl, rfl, rfl, ?_⟩
  simp only
  split
  · exact page_fault_length _ _ _
  · rfl

theorem read_page_some {cfg : Config} {p p1 : Process} {mem out : List Byte} {v : Int}
    {count : Nat} (h : read_page cfg p mem v count = some (p1, out)) :
    ∃ a, translate cfg p v = some (p1, a) ∧ mem_read mem a count = some out := by
  unfold read_page at h
  split at h
  · cases h
  · rename_i p2 a htr
    split at h
    · cases h
    · rename_i buf hr
      simp only [Option.some.injEq, Prod.mk.injEq] at h
      obtain ⟨rfl, rfl⟩ := h
      exact ⟨a, htr, hr⟩

theorem write_page_some {cfg : Config} {p p1 : Process} {mem mem1 buf : List Byte} {v : Int}
    {count : Nat} (h : write_page cfg p mem v buf count = some (p1, mem1)) :
    ∃ a, translate cfg p v = some (p1, a) ∧ count ≤ buf.length ∧
      mem_write mem a (buf.take count) = some mem1 := by
  unfold write_page at h
  split at h
  · cases h
  · rename_i p2 a htr
    split at h
    · cases h
    · rename_i hcount
      split at h
      · cases h
      · rename_i mem2 hw
        simp only [Option.some.injEq, Prod.mk.injEq] at h
        obtain ⟨rfl, rfl⟩ := h
        exact ⟨a, htr, by omega, hw⟩

theorem assign_registers_length {assignments : List (Nat × Int)} {regs regs1 : List Int}
    (h : assign_registers assignments regs = some regs1) : regs1.length = regs.length := by
  induction assignments generalizing regs with
  | nil =>
    simp only [assign_registers, Option.some.injEq] at h
    rw [← h]
  | cons a rest ih =>
    obtain ⟨i, v⟩ := a
    simp only [assign_registers] at h
    split at h
    · rw [ih h, List.length_set]
    · cases h

/-- The effect of an instruction changes neither pid, size, num_inst, pc nor the saved
registers of the process, and keeps the size of the register file. -/
theorem run_op_same {cfg : Config} {prog : OpProg} {p p1 : Process} {regs regs1 : List Int}
    {mem mem1 : List Byte} (h : run_op cfg prog p regs mem = some (p1, regs1, mem1)) :
    SameButPageTable p p1 ∧ regs1.length = regs.length := by
  induction prog generalizing p mem with
  | done assignments =>
    simp only [run_op] at h
    split at h
    · cases h
    · rename_i r hr
      simp only [Option.some.injEq, Prod.mk.injEq] at h
      obtain ⟨rfl, rfl, rfl⟩ := h
      exact ⟨SameButPageTable.refl _, assign_registers_length hr⟩
  | read v count k ih =>
    simp only [run_op] at h
    split at h
    · cases h
    · rename_i p2 buf hr
      obtain ⟨a, htr, -⟩ := read_page_some hr
      obtain ⟨h1, h2⟩ := ih buf h
      exact ⟨(translate_same htr).trans h1, h2⟩
  | write v buf k ih =>
    simp only [run_op] at h
    split at h
    · cases h
    · rename_i p2 mem2 hw
      obtain ⟨a, htr, -, -⟩ := write_page_some hw
      obtain ⟨h1, h2⟩ := ih h
      exact ⟨(translate_same htr).trans h1, h2⟩

theorem dispatch_same {cfg : Config} {ops : OpSemantics} {opcode : Byte}
    {instruction : List Byte} {p p1 : Process} {regs regs1 : List Int} {mem mem1 : List Byte}
    (h : dispatch cfg ops opcode instruction p regs mem = some (p1, regs1, mem1)) :
    SameButPageTable p p1 ∧ regs1.length = regs.length := by
  unfold dispatch at h
  split at h
  · exact run_op_same h
  · split at h
    · exact run_op_same h
    · split at h
      · exact run_op_same h
      · split at h
        · exact run_op_same h
        · simp only [Option.some.injEq, Prod.mk.injEq] at h
          obtain ⟨rfl, rfl, rfl⟩ := h
          exact ⟨SameButPageTable.refl _, rfl⟩

/-- What a call of `execute` that returns leaves behind: pid, size and num_inst are
unchanged, pc has advanced by `INSTRUCTION_SIZE`, the value returned is the pc test, and
clock and process list are untouched. -/
theorem execute_some {cfg : Config} {ops : OpSemantics} {p p1 : Process} {s s1 : State}
    {finish : Int} (h : execute cfg ops p s = some (finish, p1, s1)) :
    p1.pid = p.pid ∧ p1.size = p.size ∧ p1.num_inst = p.num_inst ∧
      p1.pc = wrap32 (p.pc + cfg.INSTRUCTION_SIZE) ∧
      p1.page_table.length = p.page_table.length ∧
      finish = (if wrap32 (p1.num_inst * cfg.INSTRUCTION_SIZE) ≤ p1.pc then 1 else 0) ∧
      s1.clock = s.clock ∧ s1.process_list = s.process_list := by
  unfold execute at h
  simp only at h
  split at h
  · cases h
  · rename_i p2 instruction hr
    split at h
    · cases h
    · rename_i opcode hop
      split at h
      · cases h
      · rename_i p3 regs1 mem1 hd
        simp only [Option.some.injEq, Prod.mk.injEq] at h
        obtain ⟨hf, hp, hs⟩ := h
        obtain ⟨a, htr, -⟩ := read_page_some hr
        have hfetch := translate_same htr
        obtain ⟨hop3, -⟩ := dispatch_same hd
        unfold SameButPageTable at hfetch hop3
        simp only at hop3
        subst hp hs
        refine ⟨hop3.1.trans hfetch.1, hop3.2.1.trans hfetch.2.1,
          hop3.2.2.1.trans hfetch.2.2.1, ?_, hop3.2.2.2.2.2.trans hfetch.2.2.2.2.2,
          hf.symm, rfl, rfl⟩
        show p3.pc = _
        rw [hop3.2.2.2.1, hfetch.2.2.2.1]

theorem wrap32_natCast {n : Nat} (h : n < 2147483648) : wrap32 (n : Int) = n :=
  wrap32_of_range (by omega) (by omega)

/-- Calls number `k + 1`, ..., `c` of `execute` on a process of `c` instructions whose pc
stands after instruction `k`: all return 0 but the last one, which returns 1. -/
theorem execute_calls_results {cfg : Config} {ops : OpSemantics}
    (hIS : 0 < cfg.INSTRUCTION_SIZE) (c : Nat)
    (hint : c * cfg.INSTRUCTION_SIZE < 2147483648) :
    ∀ (states : List State) (k : Nat) (p p1 : Process) (results : List Int),
      p.pc = ((k * cfg.INSTRUCTION_SIZE : Nat) : Int) → p.num_inst = c →
      k + states.length = c → states ≠ [] →
      execute_calls cfg ops states p = some (results, p1) →
      results = List.replicate (states.length - 1) 0 ++ [1] ∧
        p1.pc = ((c * cfg.INSTRUCTION_SIZE : Nat) : Int) := by
  intro states
  induction states with
  | nil => intro k p p1 results _ _ _ hne; exact absurd rfl hne
  | cons s rest ih =>
    intro k p p1 results hpc hn hlen _ h
    simp only [execute_calls] at h
    split at h
    · cases h
    · rename_i finish q s1 hex
      split at h
      · cases h
      · rename_i rs q1 hrest
        simp only [Option.some.injEq, Prod.mk.injEq] at h
        obtain ⟨rfl, rfl⟩ := h
        obtain ⟨-, -, hq2, hq3, -, hfin, -, -⟩ := execute_some hex
        simp only [List.length_cons] at hlen
        have hk1 : (k + 1) * cfg.INSTRUCTION_SIZE ≤ c * cfg.INSTRUCTION_SIZE :=
          Nat.mul_le_mul_right _ (by omega)
        have hqpc : q.pc = (((k + 1) * cfg.INSTRUCTION_SIZE : Nat) : Int) := by
          rw [hq3, hpc]
          have e : ((k * cfg.INSTRUCTION_SIZE : Nat) : Int) + (cfg.INSTRUCTION_SIZE : Int)
              = (((k + 1) * cfg.INSTRUCTION_SIZE : Nat) : Int) := by
            push_cast
            ring
          rw [e]
          exact wrap32_natCast (by omega)
        have hqn : q.num_inst = c := by rw [hq2, hn]
        have hfin2 : finish = if c ≤ k + 1 then 1 else 0 := by
          rw [hfin, hqn, hqpc]
          have e : (c : Int) * (cfg.INSTRUCTION_SIZE : Int)
              = ((c * cfg.INSTRUCTION_SIZE : Nat) : Int) := by
            push_cast
            ring
          rw [e, wrap32_natCast hint]
          by_cases hck : c ≤ k + 1
          · rw [if_pos hck, if_pos]
            exact_mod_cast Nat.mul_le_mul_right _ hck
          · rw [if_neg hck, if_neg]
            intro hle
            have hle2 : c * cfg.INSTRUCTION_SIZE ≤ (k + 1) * cfg.INSTRUCTION_SIZE := by
              exact_mod_cast hle
            exact hck (Nat.le_of_mul_le_mul_right hle2 hIS)
        cases rest with
        | nil =>
          simp only [execute_calls, Option.some.injEq, Prod.mk.injEq] at hrest
          obtain ⟨rfl, rfl⟩ := hrest
          simp only [List.length_nil] at hlen
          have hc : c = k + 1 := by omega
          rw [hfin2, if_pos (by omega), hqpc, hc]
          simp
        | cons s2 rest2 =>
          obtain ⟨hr, hp⟩ := ih (k + 1) q q1 rs hqpc hqn (by omega) (by simp) hrest
          simp only [List.length_cons] at hlen hr ⊢
          rw [hfin2, if_neg (by omega), hr]
          refine ⟨?_, hp⟩
          simp [List.replicate_succ]

theorem simulate_empty {cfg : Config} {ops : OpSemantics} :
    ∀ (fuel : Nat) (sim sim1 : Sim), simulate cfg ops fuel sim = some sim1 →
      sim1.state.process_list = [] := by
  intro fuel
  induction fuel with
  | zero =>
    intro sim sim1 h
    simp only [simulate] at h
    split at h
    · rename_i hl
      simp only [Option.some.injEq] at h
      rw [← h]; exact hl
    · cases h
  | succ n ih =>
    intro sim sim1 h
    simp only [simulate] at h
    split at h
    · rename_i hl
      simp only [Option.some.injEq] at h
      rw [← h]; exact hl
    · split at h
      · cases h
      · exact ih _ _ h

theorem copy_registers_self {n : Nat} {saved regs : List Int} (h : saved.length = n) :
    copy_registers n (copy_registers n saved regs) saved = saved := by
  unfold copy_registers
  have h1 : List.take n saved = saved := List.take_of_length_le (by omega)
  have h2 : List.drop n saved = [] := List.drop_of_length_le (by omega)
  rw [h1, h2, List.take_left' h, List.append_nil]

/-- The translation of an address `v >= 0` whose page has entry `e`: the page is bound to
`frame_after_fault e` and the physical address is computed without overflow. -/
theorem translate_of_frame {cfg : Config} {p : Process} {v : Int} {e : PageTableEntry}
    (hps : 0 < cfg.PAGE_SIZE) (hnp : 0 < cfg.NUM_PAGES)
    (hint : cfg.NUM_PAGES * cfg.PAGE_SIZE < 2147483648) (hv0 : 0 ≤ v)
    (he : p.page_table[(Int.tdiv v cfg.PAGE_SIZE).toNat]? = some e)
    (hf : e.valid ≠ 0 → 0 ≤ e.frame_number ∧ e.frame_number < cfg.NUM_PAGES) :
    ∃ p1, translate cfg p v = some
        (p1, frame_after_fault e * cfg.PAGE_SIZE + Int.tmod v cfg.PAGE_SIZE) ∧
      0 ≤ frame_after_fault e * cfg.PAGE_SIZE + Int.tmod v cfg.PAGE_SIZE ∧
      ∃ e1, p1.page_table[(Int.tdiv v cfg.PAGE_SIZE).toNat]? = some e1 ∧ e1.valid ≠ 0 := by
  have hps0 : cfg.PAGE_SIZE ≠ 0 := Nat.pos_iff_ne_zero.mp hps
  have hpn : 0 ≤ Int.tdiv v cfg.PAGE_SIZE := Int.tdiv_nonneg hv0 (Int.ofNat_nonneg _)
  have ho0 : 0 ≤ Int.tmod v cfg.PAGE_SIZE := Int.tmod_nonneg _ hv0
  have ho1 : Int.tmod v cfg.PAGE_SIZE < cfg.PAGE_SIZE :=
    Int.tmod_lt_of_pos _ (Int.ofNat_lt.mpr hps)
  have hfit : Int.tmod v cfg.PAGE_SIZE + (0 : Nat) ≤ cfg.PAGE_SIZE := by
    generalize Int.tmod v cfg.PAGE_SIZE = o at ho1 ⊢
    clear he hf hpn
    omega
  have hlt : (Int.tdiv v cfg.PAGE_SIZE).toNat < p.page_table.length := by
    rcases List.getElem?_eq_some_iff.mp he with ⟨h, -⟩
    exact h
  unfold frame_after_fault
  by_cases hval : e.valid = 0
  · have h := translate_invalid hps0 hnp hpn he hval
    have hnp2 : (0 : Int) < (cfg.NUM_PAGES : Int) := Int.ofNat_lt.mpr hnp
    obtain ⟨h1, h2, -⟩ := phys_addr_in_pool (le_refl (0 : Int)) hnp2 ho0 hfit hint
    rw [h1] at h
    rw [if_pos hval]
    refine ⟨_, h, h2, { frame_number := 0, valid := 1 }, ?_, by decide⟩
    exact List.getElem?_set_self hlt
  · have h := translate_valid hps0 hpn he hval
    obtain ⟨hf0, hf1⟩ := hf hval
    obtain ⟨h1, h2, -⟩ := phys_addr_in_pool hf0 hf1 ho0 hfit hint
    rw [h1] at h
    rw [if_neg hval]
    exact ⟨_, h, h2, e, he, hval⟩

/-- After a translation the entry of the page is valid, when there is a frame to scan. -/
theorem translate_valid_after {cfg : Config} {p p1 : Process} {v a : Int}
    (hnp : 0 < cfg.NUM_PAGES) (h : translate cfg p v = some (p1, a)) :
    ∃ e1, p1.page_table[(Int.tdiv v cfg.PAGE_SIZE).toNat]? = some e1 ∧ e1.valid ≠ 0 := by
  obtain ⟨-, -, e, e1, he, hp1, he1, -⟩ := translate_some h
  refine ⟨e1, he1, ?_⟩
  have hlt : (Int.tdiv v cfg.PAGE_SIZE).toNat < p.page_table.length := by
    rcases List.getElem?_eq_some_iff.mp he with ⟨h, -⟩
    exact h
  rw [hp1] at he1
  simp only at he1
  by_cases hval : e.valid = 0
  · rw [if_pos hval, page_fault_eq cfg _ _ hnp, List.getElem?_set_self hlt] at he1
    simp only [Option.some.injEq] at he1
    rw [← he1]
    decide
  · rw [if_neg hval, he] at he1
    simp only [Option.some.injEq] at he1
    rw [← he1]
    exact hval

theorem touch_valid_after {cfg : Config} {p p1 : Process} {mem mem1 : List Byte} {v : Int}
    {acc : Access} (hnp : 0 < cfg.NUM_PAGES) (h : touch cfg p mem v acc = some (p1, mem1)) :
    ∃ e1, p1.page_table[(Int.tdiv v cfg.PAGE_SIZE).toNat]? = some e1 ∧ e1.valid ≠ 0 := by
  cases acc with
  | read count =>
    simp only [touch] at h
    split at h
    · cases h
    · rename_i p2 out hr
      simp only [Option.some.injEq, Prod.mk.injEq] at h
      obtain ⟨rfl, -⟩ := h
      obtain ⟨a, htr, -⟩ := read_page_some hr
      exact translate_valid_after hnp htr
  | write buf count =>
    simp only [touch] at h
    obtain ⟨a, htr, -, -⟩ := write_page_some h
    exact translate_valid_after hnp htr

theorem TableOk.set {cfg : Config} {pt : List PageTableEntry} {x : PageTableEntry}
    (h : TableOk cfg pt) (hx : EntryOk cfg x) (n : Nat) : TableOk cfg (pt.set n x) := by
  intro e he
  rcases List.mem_or_eq_of_mem_set he with h1 | h1
  · exact h e h1
  · rw [h1]; exact hx

theorem entryOk_invalid (cfg : Config) : EntryOk cfg { frame_number := -1, valid := 0 } :=
  fun h => absurd rfl h

theorem page_fault_ok {cfg : Config} {pt : List PageTableEntry} (h : TableOk cfg pt)
    (n : Nat) : TableOk cfg (page_fault cfg pt n) := by
  by_cases hnp : 0 < cfg.NUM_PAGES
  · rw [page_fault_eq cfg pt n hnp]
    exact h.set (fun _ => ⟨rfl, hnp⟩) n
  · have h0 : cfg.NUM_PAGES = 0 := by omega
    have hpf : page_fault cfg pt n = pt := by
      unfold page_fault
      rw [h0]
      rfl
    rw [hpf]
    exact h

theorem translate_ok {cfg : Config} {p p1 : Process} {v a : Int}
    (h : translate cfg p v = some (p1, a)) (hp : TableOk cfg p.page_table) :
    TableOk cfg p1.page_table := by
  obtain ⟨-, -, e, e1, -, hp1, -, -⟩ := translate_some h
  rw [hp1]
  simp only
  split
  · exact page_fault_ok hp _
  · exact hp

theorem read_page_ok {cfg : Config} {p p1 : Process} {mem out : List Byte} {v : Int}
    {count : Nat} (h : read_page cfg p mem v count = some (p1, out))
    (hp : TableOk cfg p.page_table) : TableOk cfg p1.page_table := by
  obtain ⟨a, htr, -⟩ := read_page_some h
  exact translate_ok htr hp

theorem write_page_ok {cfg : Config} {p p1 : Process} {mem mem1 buf : List Byte} {v : Int}
    {count : Nat} (h : write_page cfg p mem v buf count = some (p1, mem1))
    (hp : TableOk cfg p.page_table) : TableOk cfg p1.page_table := by
  obtain ⟨a, htr, -, -⟩ := write_page_some h
  exact translate_ok htr hp

theorem run_op_ok {cfg : Config} {prog : OpProg} {p p1 : Process} {regs regs1 : List Int}
    {mem mem1 : List Byte} (h : run_op cfg prog p regs mem = some (p1, regs1, mem1))
    (hp : TableOk cfg p.page_table) : TableOk cfg p1.page_table := by
  induction prog generalizing p mem with
  | done assignments =>
    simp only [run_op] at h
    split at h
    · cases h
    · simp only [Option.some.injEq, Prod.mk.injEq] at h
      obtain ⟨rfl, -, -⟩ := h
      exact hp
  | read v count k ih =>
    simp only [run_op] at h
    split at h
    · cases h
    · rename_i p2 buf hr
      exact ih buf h (read_page_ok hr hp)
  | write v buf k ih =>
    simp only [run_op] at h
    split at h
    · cases h
    · rename_i p2 mem2 hw
      exact ih h (write_page_ok hw hp)

theorem dispatch_ok {cfg : Config} {ops : OpSemantics} {opcode : Byte}
    {instruction : List Byte} {p p1 : Process} {regs regs1 : List Int} {mem mem1 : List Byte}
    (h : dispatch cfg ops opcode instruction p regs mem = some (p1, regs1, mem1))
    (hp : TableOk cfg p.page_table) : TableOk cfg p1.page_table := by
  unfold dispatch at h
  split at h
  · exact run_op_ok h hp
  · split at h
    · exact run_op_ok h hp
    · split at h
      · exact run_op_ok h hp
      · split at h
        · exact run_op_ok h hp
        · simp only [Option.some.injEq, Prod.mk.injEq] at h
          obtain ⟨rfl, -, -⟩ := h
          exact hp

theorem execute_ok {cfg : Config} {ops : OpSemantics} {p p1 : Process} {s s1 : State}
    {finish : Int} (h : execute cfg ops p s = some (finish, p1, s1))
    (hp : TableOk cfg p.page_table) : TableOk cfg p1.page_table := by
  unfold execute at h
  simp only at h
  split at h
  · cases h
  · rename_i p2 instruction hr
    split at h
    · cases h
    · rename_i opcode hop
      split at h
      · cases h
      · rename_i p3 regs1 mem1 hd
        simp only [Option.some.injEq, Prod.mk.injEq] at h
        obtain ⟨-, hp1, -⟩ := h
        subst hp1
        have h2 : TableOk cfg p2.page_table := read_page_ok hr hp
        show TableOk cfg p3.page_table
        exact dispatch_ok hd h2

theorem load_loop_ok {cfg : Config} {lines : List (List Byte)} :
    ∀ (n i : Nat) (p p1 : Process) (mem mem1 : List Byte) (instruction : Option (List Byte)),
      load_loop cfg lines n i p mem instruction = some (p1, mem1) →
      TableOk cfg p.page_table → TableOk cfg p1.page_table := by
  intro n
  induction n with
  | zero =>
    intro i p p1 mem mem1 instruction h hp
    simp only [load_loop, Option.some.injEq, Prod.mk.injEq] at h
    obtain ⟨rfl, -⟩ := h
    exact hp
  | succ n ih =>
    intro i p p1 mem mem1 instruction h hp
    simp only [load_loop] at h
    split at h
    · cases h
    · split at h
      · cases h
      · split at h
        · cases h
        · rename_i p2 mem2 hw
          exact ih _ _ _ _ _ _ h (write_page_ok hw hp)

theorem load_ok {cfg : Config} {img : Image} {pid : Int} {s s1 : State}
    (h : load cfg img pid s = some s1) (hs : StateOk cfg s) : StateOk cfg s1 := by
  unfold load at h
  split at h
  · cases h
  · split at h
    · cases h
    · rename_i p1 mem1 hl
      simp only [Option.some.injEq] at h
      subst h
      intro q hq
      simp only [List.mem_append, List.mem_singleton] at hq
      rcases hq with hq | hq
      · exact hs q hq
      · rw [hq]
        refine load_loop_ok _ _ _ _ _ _ _ hl ?_
        intro e he
        unfold load_new_process at he
        simp only at he
        rw [List.eq_of_mem_replicate he]
        exact entryOk_invalid cfg

theorem stateOk_replace {cfg : Config} {before rest : List Process} {p p1 : Process}
    (h : ∀ q ∈ before ++ p :: rest, TableOk cfg q.page_table)
    (hp : TableOk cfg p.page_table → TableOk cfg p1.page_table) :
    ∀ q ∈ before ++ p1 :: rest, TableOk cfg q.page_table := by
  intro q hq
  simp only [List.mem_append, List.mem_cons] at hq h
  rcases hq with hq | hq | hq
  · exact h q (Or.inl hq)
  · rw [hq]
    exact hp (h p (Or.inr (Or.inl rfl)))
  · exact h q (Or.inr (Or.inr hq))

/-- In every reachable state every valid page table entry is bound to frame 0. -/
theorem reachable_ok {cfg : Config} {ops : OpSemantics} {s : State}
    (h : Reachable cfg ops s) : StateOk cfg s := by
  induction h with
  | init uninit => intro p hp; cases hp
  | load s s1 img pid _ hl ih => exact load_ok hl ih
  | read_page s before rest p p1 v count out _ hlist hr ih =>
    unfold StateOk at ih
    rw [hlist] at ih
    exact stateOk_replace ih (read_page_ok hr)
  | write_page s before rest p p1 v buf count mem1 _ hlist hw ih =>
    unfold StateOk at ih
    rw [hlist] at ih
    exact stateOk_replace ih (write_page_ok hw)
  | execute s s1 before rest p p1 finish _ hlist hex ih =>
    unfold StateOk at ih
    rw [hlist] at ih
    exact stateOk_replace ih (execute_ok hex)
  | step s s1 before rest p p1 _ hlist hex ih =>
    unfold StateOk at ih
    rw [hlist] at ih
    exact stateOk_replace ih (execute_ok hex)
  | retire s s1 before rest p p1 finish _ hlist hex _ ih =>
    unfold StateOk at ih
    rw [hlist] at ih
    intro q hq
    simp only [List.mem_append] at hq
    apply ih q
    simp only [List.mem_append, List.mem_cons]
    rcases hq with hq | hq
    · exact Or.inl hq
    · exact Or.inr (Or.inr hq)
  | simulate sim sim1 fuel _ hsim _ =>
    intro p hp
    rw [simulate_empty fuel sim sim1 hsim] at hp
    cases hp

theorem read_page_of_parts {cfg : Config} {p p1 : Process} {mem out : List Byte} {v a : Int}
    {count : Nat} (htr : translate cfg p v = some (p1, a))
    (hm : mem_read mem a count = some out) :
    read_page cfg p mem v count = some (p1, out) := by
  unfold read_page
  rw [htr]
  simp only
  rw [hm]

theorem stateAB_reachable : Reachable cfgT opsT stateAB := by
  have h : (load cfgT imgA 0 stateT).bind (load cfgT imgB 1) = some stateAB := by decide
  cases h1 : load cfgT imgA 0 stateT with
  | none => rw [h1] at h; cases h
  | some s1 =>
    rw [h1] at h
    exact Reachable.load _ _ _ _ (Reachable.load _ _ _ _ (Reachable.init _) h1) h

/-- One pass of the inner loop of `simulate` adds one event and one tick of the clock for
every process of `todo`, finished or not. -/
theorem simulate_inner_clock {cfg : Config} {ops : OpSemantics} :
    ∀ (todo before : List Process) (sim sim1 : Sim),
      simulate_inner cfg ops todo before sim = some sim1 →
      sim1.events.length = sim.events.length + todo.length ∧
        (-2147483648 ≤ sim.state.clock →
          sim.state.clock + (todo.length : Int) < 2147483648 →
          sim1.state.clock = sim.state.clock + (todo.length : Int)) := by
  intro todo
  induction todo with
  | nil =>
    intro before sim sim1 h
    simp only [simulate_inner, Option.some.injEq] at h
    subst h
    simp
  | cons p rest ih =>
    intro before sim sim1 h
    simp only [simulate_inner] at h
    split at h
    · cases h
    · rename_i finish p1 s1 hex
      obtain ⟨-, -, -, -, -, -, hclock, -⟩ := execute_some hex
      have key : ∀ (before2 : List Process) (sim2 : Sim),
          sim2.events.length = sim.events.length + 1 →
          sim2.state.clock = wrap32 (sim.state.clock + 1) →
          simulate_inner cfg ops rest before2 sim2 = some sim1 →
          sim1.events.length = sim.events.length + (p :: rest).length ∧
            (-2147483648 ≤ sim.state.clock →
              sim.state.clock + ((p :: rest).length : Int) < 2147483648 →
              sim1.state.clock = sim.state.clock + ((p :: rest).length : Int)) := by
        intro before2 sim2 hev hcl hrun
        obtain ⟨h1, h2⟩ := ih before2 sim2 sim1 hrun
        simp only [List.length_cons, Nat.cast_add, Nat.cast_one]
        constructor
        · omega
        · intro h0 hlt
          have hw : wrap32 (sim.state.clock + 1) = sim.state.clock + 1 :=
            wrap32_of_range (by omega) (by omega)
          rw [hw] at hcl
          rw [h2 (by omega) (by omega), hcl]
          omega
      split at h
      · split at h
        · cases h
        · exact key _ _ (by simp) (by simp [hclock]) h
      · exact key _ _ (by simp) (by simp [hclock]) h

/-- A run of `simulate` adds as many ticks to the clock as it adds events. -/
theorem simulate_clock {cfg : Config} {ops : OpSemantics} :
    ∀ (fuel : Nat) (sim sim1 : Sim), simulate cfg ops fuel sim = some sim1 →
      ∃ n : Nat, sim1.events.length = sim.events.length + n ∧
        (-2147483648 ≤ sim.state.clock → sim.state.clock + (n : Int) < 2147483648 →
          sim1.state.clock = sim.state.clock + (n : Int)) := by
  intro fuel
  induction fuel with
  | zero =>
    intro sim sim1 h
    simp only [simulate] at h
    split at h
    · simp only [Option.some.injEq] at h
      subst h
      exact ⟨0, by simp, by simp⟩
    · cases h
  | succ k ih =>
    intro sim sim1 h
    simp only [simulate] at h
    split at h
    · simp only [Option.some.injEq] at h
      subst h
      exact ⟨0, by simp, by simp⟩
    · split at h
      · cases h
      · rename_i sim2 hin
        obtain ⟨h1, h2⟩ := simulate_inner_clock _ _ _ _ hin
        obtain ⟨m, h3, h4⟩ := ih sim2 sim1 h
        refine ⟨sim.state.process_list.length + m, by omega, ?_⟩
        intro h0 hlt
        simp only [Nat.cast_add] at hlt
        have hc2 := h2 h0 (by omega)
        rw [h4 (by omega) (by omega), hc2]
        simp only [Nat.cast_add]
        omega

/-- A call of `load` that returns has run the instruction loop on `load_new_process` and
appended the process the loop returns. -/
theorem load_some {cfg : Config} {img : Image} {pid : Int} {s s1 : State}
    (h : load cfg img pid s = some s1) :
    ∃ q mem1, load_loop cfg img.lines img.num_inst.toNat 0 (load_new_process cfg img pid)
        s.phy_memory none = some (q, mem1) ∧
      s1 = { s with phy_memory := mem1, process_list := s.process_list ++ [q] } := by
  unfold load at h
  split at h
  · cases h
  · split at h
    · cases h
    · rename_i q mem1 hl
      simp only [Option.some.injEq] at h
      exact ⟨q, mem1, hl, h.symm⟩

theorem load_loop_same {cfg : Config} {lines : List (List Byte)} :
    ∀ (n i : Nat) (p p1 : Process) (mem mem1 : List Byte) (instruction : Option (List Byte)),
      load_loop cfg lines n i p mem instruction = some (p1, mem1) →
      SameButPageTable p p1 := by
  intro n
  induction n with
  | zero =>
    intro i p p1 mem mem1 instruction h
    simp only [load_loop, Option.some.injEq, Prod.mk.injEq] at h
    rw [← h.1]
    exact SameButPageTable.refl p
  | succ n ih =>
    intro i p p1 mem mem1 instruction h
    simp only [load_loop] at h
    split at h
    · cases h
    · split at h
      · cases h
      · split at h
        · cases h
        · rename_i p2 mem2 hw
          obtain ⟨a, htr, -, -⟩ := write_page_some hw
          exact (translate_same htr).trans (ih _ _ _ _ _ _ h)

/-- The quotient `(size + PS - 1) / PS` is the least number of pages of `PS` bytes that
hold `size` bytes. -/
theorem ceil_pages (size : Int) (PS : Nat) (hps : 0 < PS) (h0 : 0 ≤ size) :
    0 ≤ (size + PS - 1) / (PS : Int) ∧
      ((size + PS - 1) / (PS : Int) - 1) * PS < size ∧
      size ≤ (size + PS - 1) / (PS : Int) * PS := by
  have hpos : (0 : Int) < (PS : Int) := Int.ofNat_lt.mpr hps
  have h1 := Int.ediv_add_emod (size + PS - 1) PS
  have h2 := Int.emod_nonneg (size + PS - 1) (ne_of_gt hpos)
  have h3 := Int.emod_lt_of_pos (size + PS - 1) hpos
  have h4 : 0 ≤ (size + PS - 1) / (PS : Int) :=
    Int.ediv_nonneg (by omega) (le_of_lt hpos)
  generalize (size + PS - 1) / (PS : Int) = q at h1 h4 ⊢
  generalize (size + PS - 1) % (PS : Int) = r at h1 h2 h3
  have e1 : (q - 1) * (PS : Int) = (PS : Int) * q - PS := by ring
  have e2 : q * (PS : Int) = (PS : Int) * q := by ring
  rw [e1, e2]
  generalize (PS : Int) * q = m at h1 ⊢
  refine ⟨h4, ?_, ?_⟩ <;> omega

/-- The page table of `load_new_process` has the least number of entries that cover
`size` bytes, all invalid, as long as `size + PAGE_SIZE` is inside the range of `int`. -/
theorem load_new_process_table {cfg : Config} {img : Image} (pid : Int)
    (hps : 0 < cfg.PAGE_SIZE) (hsize : 0 ≤ img.size)
    (hrange : img.size + cfg.PAGE_SIZE < 2147483648) :
    ∃ n : Nat, ((n : Int) - 1) * cfg.PAGE_SIZE < img.size ∧
      img.size ≤ (n : Int) * cfg.PAGE_SIZE ∧
      (load_new_process cfg img pid).page_table
        = List.replicate n { frame_number := -1, valid := 0 } := by
  obtain ⟨c0, c1, c2⟩ := ceil_pages img.size cfg.PAGE_SIZE hps hsize
  have hw1 : wrap32 (img.size + cfg.PAGE_SIZE) = img.size + cfg.PAGE_SIZE :=
    wrap32_of_range (by omega) hrange
  have hw2 : wrap32 (img.size + cfg.PAGE_SIZE - 1) = img.size + cfg.PAGE_SIZE - 1 :=
    wrap32_of_range (by omega) (by omega)
  have hd : Int.tdiv (img.size + cfg.PAGE_SIZE - 1) cfg.PAGE_SIZE
      = (img.size + cfg.PAGE_SIZE - 1) / (cfg.PAGE_SIZE : Int) :=
    Int.tdiv_eq_ediv (by omega) (Int.ofNat_nonneg _)
  refine ⟨((img.size + cfg.PAGE_SIZE - 1) / (cfg.PAGE_SIZE : Int)).toNat, ?_, ?_, ?_⟩
  · rw [Int.toNat_of_nonneg c0]; exact c1
  · rw [Int.toNat_of_nonneg c0]; exact c2
  · unfold load_new_process
    simp only
    rw [hw1, hw2, hd]

/-- Copying a register file of `n` registers over another one of `n` registers gives the
first. -/
theorem copy_registers_full {n : Nat} {src dst : List Int} (hs : src.length = n)
    (hd : dst.length = n) : copy_registers n src dst = src := by
  unfold copy_registers
  have h1 : List.take n src = src := List.take_of_length_le (by omega)
  have h2 : List.drop n dst = [] := List.drop_of_length_le (by omega)
  rw [h1, h2, List.append_nil]

theorem page_fault_other (cfg : Config) (pt : List PageTableEntry) {n i : Nat} (h : i ≠ n) :
    (page_fault cfg pt n)[i]? = pt[i]? := by
  unfold page_fault
  split
  · exact List.getElem?_set_ne (Ne.symm h)
  · rfl

/-- A translation changes no entry but the one of the page of the address, and changes
nothing at all when that entry is valid. -/
theorem translate_frame {cfg : Config} {p p1 : Process} {v a : Int}
    (h : translate cfg p v = some (p1, a)) :
    (∀ i : Nat, i ≠ (Int.tdiv v cfg.PAGE_SIZE).toNat → p1.page_table[i]? = p.page_table[i]?) ∧
      ∀ e, p.page_table[(Int.tdiv v cfg.PAGE_SIZE).toNat]? = some e → e.valid ≠ 0 → p1 = p := by
  obtain ⟨-, -, e, e1, he, hp1, -, -⟩ := translate_some h
  constructor
  · intro i hi
    rw [hp1]
    simp only
    split
    · exact page_fault_other cfg _ hi
    · rfl
  · intro e2 he2 hv
    rw [he] at he2
    simp only [Option.some.injEq] at he2
    rw [← he2] at hv
    rw [hp1, if_neg hv]

/-- A copy into physical memory keeps its length and every byte outside the range
written. -/
theorem mem_write_outside {mem mem1 : List Byte} {a : Int} {bytes : List Byte}
    (h : mem_write mem a bytes = some mem1) :
    0 ≤ a ∧ mem1.length = mem.length ∧
      ∀ i : Nat, (i < a.toNat ∨ a.toNat + bytes.length ≤ i) → mem1[i]? = mem[i]? := by
  have hlen := mem_write_length h
  obtain ⟨h0, hle, rfl⟩ := mem_write_some h
  refine ⟨h0, hlen, ?_⟩
  intro i hi
  have htl : (mem.take a.toNat).length = a.toNat := by
    rw [List.length_take]
    omega
  rcases hi with hi | hi
  · rw [List.append_assoc, List.getElem?_append_left (by omega), List.getElem?_take_of_lt hi]
  · rw [List.getElem?_append_right (by rw [List.length_append]; omega), List.length_append,
      htl, List.getElem?_drop]
    congr 1
    omega

/-- C1 (frame exclusivity) does not hold of the code: after the initialisation and the
load of two images of one instruction or more each, which is a reachable state, page 0
of both processes is valid and both entries hold frame 0. -/
theorem frame_exclusivity_broken_by_two_loads :
    (load cfgT imgA 0 stateT).bind (load cfgT imgB 1) = some stateAB ∧
      Reachable cfgT opsT stateAB ∧
      stateAB.process_list.map (fun p => p.page_table)
        = [[{ frame_number := 0, valid := 1 }], [{ frame_number := 0, valid := 1 }]] ∧
      valid_frames stateAB = [0, 0] ∧ ¬ FrameExclusive stateAB := by
  refine ⟨?_, stateAB_reachable, ?_, ?_, ?_⟩
  all_goals decide

/-- C2 (write-then-read round trip): for an address `v >= 0` inside the page table of the
process and a buffer that stays inside the page of `v`, `write_page` followed by
`read_page` at `v` with the same count returns the buffer, whether the page was valid
before the write or not.  The frames of the valid pages are frames of the pool, and the
pool lies in physical memory. -/
theorem write_then_read_round_trip (cfg : Config) (process : Process)
    (phy_memory : List Byte) (v : Int) (buf : List Byte)
    (hps : 0 < cfg.PAGE_SIZE) (hnp : 0 < cfg.NUM_PAGES)
    (hmem : cfg.NUM_PAGES * cfg.PAGE_SIZE ≤ phy_memory.length)
    (hint : cfg.NUM_PAGES * cfg.PAGE_SIZE < 2147483648)
    (hframes : ∀ e ∈ process.page_table, e.valid ≠ 0 →
      0 ≤ e.frame_number ∧ e.frame_number < cfg.NUM_PAGES)
    (hv0 : 0 ≤ v) (hv : (Int.tdiv v cfg.PAGE_SIZE).toNat < process.page_table.length)
    (hfit : (Int.tmod v cfg.PAGE_SIZE).toNat + buf.length ≤ cfg.PAGE_SIZE) :
    ∃ p1 mem1 p2, write_page cfg process phy_memory v buf buf.length = some (p1, mem1) ∧
      read_page cfg p1 mem1 v buf.length = some (p2, buf) := by
  obtain ⟨p1, a, htr, h0, hle⟩ := translate_defined hps hnp hint hframes hv0 hv hfit
  have hle2 : a.toNat + buf.length ≤ phy_memory.length := by omega
  have hw := write_page_of_translate htr (le_refl buf.length) h0 hle2
  have hr := read_page_after_write_page hw
  rw [List.take_length] at hw hr
  exact ⟨p1, _, p1, hw, hr⟩

/-- C2 at a concrete input: three bytes written at address 4 of an untouched page are
read back. -/
theorem write_then_read_round_trip_witness :
    ∃ p1 mem1 p2, write_page cfgT procT stateT.phy_memory 4 [1, 2, 3] 3 = some (p1, mem1) ∧
      read_page cfgT p1 mem1 4 3 = some (p2, [1, 2, 3]) := by
  refine write_then_read_round_trip cfgT procT stateT.phy_memory 4 [1, 2, 3]
    ?_ ?_ ?_ ?_ ?_ ?_ ?_ ?_
  all_goals decide

/-- C3 as stated fails for `c = 0`: a process loaded with pc = 0 and num_inst = 0 is
stepped once by `simulate`, and this first call of `execute` returns 1; it is retired
after one step, not after zero steps. -/
theorem zero_instructions_one_step :
    (load cfgT imgEmpty 0 stateT).map
        (fun s => s.process_list.map fun p => (p.pc, p.num_inst)) = some [(0, 0)] ∧
      ((load cfgT imgEmpty 0 stateT).bind fun s => simulate cfgT opsT 1 (Sim.start s)).map
        (fun sim => sim.events) = some [{ pid := 0, finish := 1 }] := by
  decide

/-- C3, amended to `c >= 1`: for a process with pc = 0 and num_inst = c, c >= 1, the
first c calls of `execute` (whatever runs between them) return 0, ..., 0, 1: the c-th
call is the first to return 1.  And every call of `execute` advances pc by
`INSTRUCTION_SIZE` and returns 1 iff num_inst * INSTRUCTION_SIZE <= pc then, else 0. -/
theorem execute_terminates_on_last_instruction (cfg : Config) (ops : OpSemantics)
    (p : Process) (states : List State) (c : Nat) (results : List Int)
    (hIS : 0 < cfg.INSTRUCTION_SIZE) (hc : 1 ≤ c)
    (hint : c * cfg.INSTRUCTION_SIZE < 2147483648)
    (hpc : p.pc = 0) (hn : p.num_inst = c) (hlen : states.length = c)
    (hrun : (execute_calls cfg ops states p).map (fun r => r.1) = some results) :
    results = List.replicate (c - 1) 0 ++ [1] ∧
      ∀ (q q1 : Process) (s s1 : State) (r : Int),
        execute cfg ops q s = some (r, q1, s1) →
        q1.pc = wrap32 (q.pc + cfg.INSTRUCTION_SIZE) ∧ q1.num_inst = q.num_inst ∧
          (r = 1 ↔ wrap32 (q1.num_inst * cfg.INSTRUCTION_SIZE) ≤ q1.pc) ∧
          (r = 0 ∨ r = 1) := by
  constructor
  · cases hex : execute_calls cfg ops states p with
    | none => rw [hex] at hrun; cases hrun
    | some res =>
      obtain ⟨rs, p1⟩ := res
      rw [hex] at hrun
      simp only [Option.map_some', Option.some.injEq] at hrun
      subst hrun
      have hne : states ≠ [] := by
        intro h0
        rw [h0] at hlen
        simp only [List.length_nil] at hlen
        omega
      have h := (execute_calls_results hIS c hint states 0 p p1 rs (by simpa using hpc) hn
        (by omega) hne hex).1
      rw [hlen] at h
      exact h
  · intro q q1 s s1 r hex
    obtain ⟨-, -, h3, h4, -, h6, -, -⟩ := execute_some hex
    refine ⟨h4, h3, ?_, ?_⟩
    · rw [h6]
      split <;> simp_all
    · rw [h6]
      split <;> simp

/-- C3 at a concrete input: the process of `imgA` (two instructions) returns 0 on its
first call and 1 on its second. -/
theorem execute_terminates_on_last_instruction_witness :
    [0, 1] = List.replicate (2 - 1) (0 : Int) ++ [1] ∧
      ∀ (q q1 : Process) (s s1 : State) (r : Int),
        execute cfgT opsT q s = some (r, q1, s1) →
        q1.pc = wrap32 (q.pc + cfgT.INSTRUCTION_SIZE) ∧ q1.num_inst = q.num_inst ∧
          (r = 1 ↔ wrap32 (q1.num_inst * cfgT.INSTRUCTION_SIZE) ≤ q1.pc) ∧
          (r = 0 ∨ r = 1) := by
  refine execute_terminates_on_last_instruction cfgT opsT procA [stateAB, stateAB] 2 [0, 1]
    ?_ ?_ ?_ ?_ ?_ ?_ ?_
  all_goals decide

/-- C5 does not hold of the code for a size that is not a multiple of `PAGE_SIZE`: the
process of `imgB` (size 8, pages of 16 bytes) has one page table entry, the reclaim loop
runs `8 / 16 = 0` times, and the process is freed with its entry still valid on frame 0. -/
theorem reclaim_misses_last_page :
    (load cfgT imgB 0 stateT).map (fun s => s.process_list.map fun p => p.page_table)
        = some [[{ frame_number := 0, valid := 1 }]] ∧
      ((load cfgT imgB 0 stateT).bind fun s => simulate cfgT opsT 1 (Sim.start s)).map
        (fun sim => (sim.events, sim.retired.map fun p => p.page_table,
          sim.state.process_list))
        = some ([{ pid := 0, finish := 1 }], [[{ frame_number := 0, valid := 1 }]], []) := by
  decide

/-- C7 as stated fails: a write of 16 bytes at address 8 of a page of 16 bytes bound to
frame 0 does not fail; it overwrites bytes 8 to 23 of physical memory, eight of them
beyond the end of frame 0, and a read of the same range returns them. -/
theorem misaligned_write_crosses_frame :
    write_page cfgT procA stateT.phy_memory 8 (List.replicate 16 7) 16
        = some (procA, List.replicate 8 0 ++ List.replicate 16 7 ++ List.replicate 40 0) ∧
      read_page cfgT procA
          (List.replicate 8 0 ++ List.replicate 16 7 ++ List.replicate 40 0) 8 16
        = some (procA, List.replicate 16 7) := by
  decide

/-- C7, amended: `read_page` and `write_page` make no alignment check.  A request at
`v >= 0` that does not fit in the page of `v` returns whenever its `count` bytes from
the physical address `a` lie in physical memory, and all `count` bytes are copied, up to
an address beyond the end of the frame of the page. -/
theorem misaligned_request_is_copied (cfg : Config) (p : Process) (mem : List Byte)
    (v : Int) (buf : List Byte) (count a : Nat) (e : PageTableEntry)
    (hps : 0 < cfg.PAGE_SIZE) (hnp : 0 < cfg.NUM_PAGES)
    (hint : cfg.NUM_PAGES * cfg.PAGE_SIZE < 2147483648) (hv0 : 0 ≤ v)
    (he : p.page_table[(Int.tdiv v cfg.PAGE_SIZE).toNat]? = some e)
    (hf : e.valid ≠ 0 → 0 ≤ e.frame_number ∧ e.frame_number < cfg.NUM_PAGES)
    (ha : (a : Int) = frame_after_fault e * cfg.PAGE_SIZE + Int.tmod v cfg.PAGE_SIZE)
    (hcount : count ≤ buf.length)
    (hmis : (cfg.PAGE_SIZE : Int) < Int.tmod v cfg.PAGE_SIZE + count)
    (hle : a + count ≤ mem.length) :
    (∃ p1, write_page cfg p mem v buf count
        = some (p1, mem.take a ++ buf.take count ++ mem.drop (a + count)) ∧
      read_page cfg p mem v count = some (p1, (mem.drop a).take count)) ∧
      (frame_after_fault e + 1) * cfg.PAGE_SIZE < (a : Int) + count := by
  obtain ⟨p1, htr, h0, -⟩ := translate_of_frame hps hnp hint hv0 he hf
  rw [← ha] at htr
  constructor
  · refine ⟨p1, ?_, ?_⟩
    · exact write_page_of_translate htr hcount (Int.ofNat_nonneg a) hle
    · exact read_page_of_translate htr (Int.ofNat_nonneg a) hle
  · rw [ha, Int.add_mul, Int.one_mul]
    generalize frame_after_fault e * (cfg.PAGE_SIZE : Int) = b
    generalize Int.tmod v cfg.PAGE_SIZE = o at hmis
    clear he hf htr h0 ha
    omega

/-- C7, amended, at a concrete input: 16 bytes at address 8 of the valid page 0 of
`procA`. -/
theorem misaligned_request_is_copied_witness :
    (∃ p1, write_page cfgT procA stateT.phy_memory 8 (List.replicate 16 7) 16
        = some (p1, stateT.phy_memory.take 8 ++ (List.replicate 16 7).take 16
            ++ stateT.phy_memory.drop (8 + 16)) ∧
      read_page cfgT procA stateT.phy_memory 8 16
        = some (p1, (stateT.phy_memory.drop 8).take 16)) ∧
      (frame_after_fault { frame_number := 0, valid := 1 } + 1) * cfgT.PAGE_SIZE
        < ((8 : Nat) : Int) + (16 : Nat) := by
  refine misaligned_request_is_copied cfgT procA stateT.phy_memory 8 (List.replicate 16 7) 16 8
    { frame_number := 0, valid := 1 } ?_ ?_ ?_ ?_ ?_ ?_ ?_ ?_ ?_ ?_
  all_goals decide

/-- C8 as stated fails: with a pool of two frames and three processes of one page each,
after each `load` has touched page 0 of its process through `write_page`, all three
page-0 entries are valid on frame 0: one frame is occupied, not two, and no process has
an invalid entry, not one. -/
theorem three_pages_two_frames_all_valid :
    (((load cfgTwoFrames imgOnePage 0 (initialize_globals cfgTwoFrames fun _ => 0)).bind
        (load cfgTwoFrames imgOnePage 1)).bind (load cfgTwoFrames imgOnePage 2)).map
      (fun s => (s.process_list.map (fun p => p.page_table),
        (valid_frames s).dedup.length,
        (s.process_list.filter fun p =>
          p.page_table.head?.all fun e => e.valid = 0).length))
    = some ([[{ frame_number := 0, valid := 1 }], [{ frame_number := 0, valid := 1 }],
        [{ frame_number := 0, valid := 1 }]], 1, 0) := by
  decide

/-- C8, amended: the code has no eviction.  With a pool of two frames, after three
processes have each touched their page 0 through `read_page` or `write_page`, the page-0
entry of each of the three is valid. -/
theorem three_touches_no_eviction (cfg : Config) (p1 p2 p3 q1 q2 q3 : Process)
    (m0 m1 m2 m3 : List Byte) (v1 v2 v3 : Int) (t1 t2 t3 : Access)
    (hnp : cfg.NUM_PAGES = 2)
    (hv1 : Int.tdiv v1 cfg.PAGE_SIZE = 0) (hv2 : Int.tdiv v2 cfg.PAGE_SIZE = 0)
    (hv3 : Int.tdiv v3 cfg.PAGE_SIZE = 0)
    (h1 : touch cfg p1 m0 v1 t1 = some (q1, m1))
    (h2 : touch cfg p2 m1 v2 t2 = some (q2, m2))
    (h3 : touch cfg p3 m2 v3 t3 = some (q3, m3)) :
    (∃ e, q1.page_table[0]? = some e ∧ e.valid ≠ 0) ∧
      (∃ e, q2.page_table[0]? = some e ∧ e.valid ≠ 0) ∧
      (∃ e, q3.page_table[0]? = some e ∧ e.valid ≠ 0) := by
  have hpos : 0 < cfg.NUM_PAGES := by omega
  have a1 := touch_valid_after hpos h1
  have a2 := touch_valid_after hpos h2
  have a3 := touch_valid_after hpos h3
  rw [hv1] at a1
  rw [hv2] at a2
  rw [hv3] at a3
  exact ⟨a1, a2, a3⟩

/-- C8, amended, at a concrete input: a write by process 0, a read by process 1 and a
write by process 2, all three untouched before. -/
theorem three_touches_no_eviction_witness :
    (∃ e, (touched 0).page_table[0]? = some e ∧ e.valid ≠ 0) ∧
      (∃ e, (touched 1).page_table[0]? = some e ∧ e.valid ≠ 0) ∧
      (∃ e, (touched 2).page_table[0]? = some e ∧ e.valid ≠ 0) := by
  refine three_touches_no_eviction cfgTwoFrames (untouched 0) (untouched 1) (untouched 2)
    (touched 0) (touched 1) (touched 2)
    (List.replicate 32 0) ([9] ++ List.replicate 31 0) ([9] ++ List.replicate 31 0)
    ([9, 0, 0, 0, 5] ++ List.replicate 27 0) 0 3 4 (.write [9] 1) (.read 2) (.write [5] 1)
    ?_ ?_ ?_ ?_ ?_ ?_ ?_
  all_goals decide

/-- C9 (fault transparency): in a reachable state, for a process of the list and an
address `v` on a valid page, the bytes `read_page` returns at `v` are returned again by
`read_page` at `v` with the same count after the entry of the page has been set to
valid = 0, frame_number = -1, the memory being the same. -/
theorem fault_transparency (cfg : Config) (ops : OpSemantics) (s : State) (p p1 : Process)
    (v : Int) (count : Nat) (e : PageTableEntry) (out : List Byte)
    (hreach : Reachable cfg ops s) (hp : p ∈ s.process_list)
    (he : p.page_table[(Int.tdiv v cfg.PAGE_SIZE).toNat]? = some e) (hvalid : e.valid ≠ 0)
    (hread : read_page cfg p s.phy_memory v count = some (p1, out)) :
    ∃ p2, read_page cfg (invalidate p (Int.tdiv v cfg.PAGE_SIZE).toNat) s.phy_memory v count
      = some (p2, out) := by
  obtain ⟨a, htr, hmem⟩ := read_page_some hread
  obtain ⟨hps, hpn, -⟩ := translate_some htr
  obtain ⟨hf0, hnp⟩ := reachable_ok hreach p hp e (List.getElem?_mem he) hvalid
  have h1 := translate_valid hps hpn he hvalid
  rw [htr] at h1
  simp only [Option.some.injEq, Prod.mk.injEq] at h1
  have hlt : (Int.tdiv v cfg.PAGE_SIZE).toNat < p.page_table.length := by
    rcases List.getElem?_eq_some_iff.mp he with ⟨h, -⟩
    exact h
  have he2 : (invalidate p (Int.tdiv v cfg.PAGE_SIZE).toNat).page_table[
      (Int.tdiv v cfg.PAGE_SIZE).toNat]? = some { frame_number := -1, valid := 0 } := by
    unfold invalidate
    exact List.getElem?_set_self hlt
  have hz : ({ frame_number := -1, valid := 0 } : PageTableEntry).valid = 0 := rfl
  have h2 := translate_invalid hps hnp hpn he2 hz
  have ha := h1.2
  rw [hf0] at ha
  rw [ha] at hmem
  exact ⟨_, read_page_of_parts h2 hmem⟩

/-- C9 at a concrete input: the first three bytes of process 0 after the two loads. -/
theorem fault_transparency_witness :
    ∃ p2, read_page cfgT (invalidate procA 0) stateAB.phy_memory 0 3
      = some (p2, [83, 0, 49]) := by
  refine fault_transparency cfgT opsT stateAB procA procA 0 3 { frame_number := 0, valid := 1 }
    [83, 0, 49] stateAB_reachable ?_ ?_ ?_ ?_
  all_goals decide

/-- C10 (an unknown opcode is a no-op): when the fetch returns an instruction whose first
byte is none of `M`, `A`, `L`, `S`, `execute` returns; the saved registers of the process
are as before the step, physical memory is unchanged, pc has advanced by exactly
`INSTRUCTION_SIZE`, and the value returned is the one of the pc test. -/
theorem unknown_opcode_is_no_op (cfg : Config) (ops : OpSemantics) (p p1 : Process)
    (s : State) (instruction : List Byte) (opcode : Byte)
    (hregs : p.temp_reg_set.length = cfg.MAX_REGISTERS)
    (hpc : -2147483648 ≤ p.pc + cfg.INSTRUCTION_SIZE ∧ p.pc + cfg.INSTRUCTION_SIZE < 2147483648)
    (hfetch : read_page cfg p s.phy_memory p.pc cfg.INSTRUCTION_SIZE = some (p1, instruction))
    (hop : instruction.head? = some opcode)
    (hunknown : opcode ≠ 77 ∧ opcode ≠ 65 ∧ opcode ≠ 76 ∧ opcode ≠ 83) :
    ∃ (r : Int) (p2 : Process) (s1 : State),
      execute cfg ops p s = some (r, p2, s1) ∧
      p2.temp_reg_set = p.temp_reg_set ∧
      s1.phy_memory = s.phy_memory ∧
      p2.pc = p.pc + cfg.INSTRUCTION_SIZE ∧
      r = (if wrap32 (p.num_inst * cfg.INSTRUCTION_SIZE) ≤ p.pc + cfg.INSTRUCTION_SIZE
            then 1 else 0) := by
  obtain ⟨a, htr, -⟩ := read_page_some hfetch
  obtain ⟨-, -, a3, a4, a5, -⟩ := translate_same htr
  obtain ⟨h77, h65, h76, h83⟩ := hunknown
  have hw : wrap32 (p.pc + cfg.INSTRUCTION_SIZE) = p.pc + cfg.INSTRUCTION_SIZE :=
    wrap32_of_range hpc.1 hpc.2
  have hex : execute cfg ops p s = some
      ((if wrap32 (p1.num_inst * cfg.INSTRUCTION_SIZE) ≤ wrap32 (p1.pc + cfg.INSTRUCTION_SIZE)
          then 1 else 0),
        { p1 with
          pc := wrap32 (p1.pc + cfg.INSTRUCTION_SIZE)
          temp_reg_set := copy_registers cfg.MAX_REGISTERS
            (copy_registers cfg.MAX_REGISTERS p.temp_reg_set s.register_set) p1.temp_reg_set },
        { s with
          register_set := copy_registers cfg.MAX_REGISTERS p.temp_reg_set s.register_set }) := by
    unfold execute
    simp only [hfetch, hop, dispatch, if_neg h77, if_neg h65, if_neg h76, if_neg h83]
  refine ⟨_, _, _, hex, ?_, rfl, ?_, ?_⟩
  · simp only [a5]
    exact copy_registers_self hregs
  · simp only [a4]
    exact hw
  · simp only [a3, a4, hw]

/-- C10 at a concrete input: the process of `imgA` fetches eight zero bytes from an
all-zero memory; opcode 0 is unknown. -/
theorem unknown_opcode_is_no_op_witness :
    ∃ (r : Int) (p2 : Process) (s1 : State),
      execute cfgT opsT procA stateT = some (r, p2, s1) ∧
      p2.temp_reg_set = procA.temp_reg_set ∧
      s1.phy_memory = stateT.phy_memory ∧
      p2.pc = procA.pc + cfgT.INSTRUCTION_SIZE ∧
      r = (if wrap32 (procA.num_inst * cfgT.INSTRUCTION_SIZE)
              ≤ procA.pc + cfgT.INSTRUCTION_SIZE then 1 else 0) := by
  refine unknown_opcode_is_no_op cfgT opsT procA procA stateT (List.replicate 8 0) 0
    ?_ ?_ ?_ ?_ ?_
  all_goals decide

/-- C11 (clock per step): when `simulate` returns, the clock has advanced by exactly the
number of calls of `execute` it made, those that returned 1 and those that returned 0
alike (the clock staying inside the range of `int`). -/
theorem clock_counts_steps (cfg : Config) (ops : OpSemantics) (fuel : Nat) (s : State)
    (clock1 : Int) (steps : Nat)
    (h : (simulate cfg ops fuel (Sim.start s)).map
      (fun sim => (sim.state.clock, sim.events.length)) = some (clock1, steps))
    (h0 : -2147483648 ≤ s.clock)
    (h1 : s.clock + (steps : Int) < 2147483648) :
    clock1 = s.clock + (steps : Int) := by
  cases hsim : simulate cfg ops fuel (Sim.start s) with
  | none => rw [hsim] at h; cases h
  | some sim1 =>
    rw [hsim] at h
    simp only [Option.map_some', Option.some.injEq, Prod.mk.injEq] at h
    obtain ⟨n, hn, hc⟩ := simulate_clock fuel _ sim1 hsim
    have he : (Sim.start s).events.length = 0 := rfl
    have hs : (Sim.start s).state.clock = s.clock := rfl
    rw [he, Nat.zero_add] at hn
    rw [hs] at hc
    rw [← h.1, ← h.2, hn]
    rw [← h.2, hn] at h1
    exact hc h0 h1

/-- C11 at a concrete input: the run on `stateBA` makes three calls of `execute`, one that
returns 0 and two that return 1, and leaves the clock at 3. -/
theorem clock_counts_steps_witness : (3 : Int) = stateBA.clock + ((3 : Nat) : Int) := by
  refine clock_counts_steps cfgT opsT 2 stateBA 3 3 ?_ ?_ ?_
  all_goals decide

/-- C12 (translation arithmetic): for a size >= 0 (with size + PAGE_SIZE inside the range
of `int`) the page table that `load` builds has `n` entries, where `n` is the ceiling of
size / PAGE_SIZE, that is (n - 1) * PAGE_SIZE < size <= n * PAGE_SIZE.  All entries start
with frame_number = -1 and valid = 0: `load` of the image without its instructions
returns with exactly this table; `load` of the image starts its instruction loop with
this table and, whenever it returns, has appended a process with a table of the same
length `n`.  And for an address `v >= 0` on a valid page with entry `e`, `read_page` and
`write_page` return and copy from and to the physical address
e.frame_number * PAGE_SIZE + v % PAGE_SIZE. -/
theorem translation_arithmetic (cfg : Config) (img : Image) (pid : Int) (s : State)
    (p : Process) (mem : List Byte) (v : Int) (buf : List Byte) (count a : Nat)
    (e : PageTableEntry)
    (hps : 0 < cfg.PAGE_SIZE) (hsize : 0 ≤ img.size)
    (hrange : img.size + cfg.PAGE_SIZE < 2147483648)
    (hv0 : 0 ≤ v) (he : p.page_table[(Int.tdiv v cfg.PAGE_SIZE).toNat]? = some e)
    (hvalid : e.valid ≠ 0) (hf0 : 0 ≤ e.frame_number)
    (ha : (a : Int) = e.frame_number * cfg.PAGE_SIZE + Int.tmod v cfg.PAGE_SIZE)
    (hint : e.frame_number * cfg.PAGE_SIZE + Int.tmod v cfg.PAGE_SIZE < 2147483648)
    (hcount : count ≤ buf.length) (hle : a + count ≤ mem.length) :
    (∃ n : Nat, ((n : Int) - 1) * cfg.PAGE_SIZE < img.size ∧
      img.size ≤ (n : Int) * cfg.PAGE_SIZE ∧
      (∃ q0 : Process,
        load cfg { img with num_inst := 0 } pid s
          = some { s with process_list := s.process_list ++ [q0] } ∧
        q0.page_table = List.replicate n { frame_number := -1, valid := 0 }) ∧
      (load_new_process cfg img pid).page_table
        = List.replicate n { frame_number := -1, valid := 0 } ∧
      load cfg img pid s
        = (load_loop cfg img.lines img.num_inst.toNat 0 (load_new_process cfg img pid)
            s.phy_memory none).map
          (fun r => { s with phy_memory := r.2, process_list := s.process_list ++ [r.1] }) ∧
      ∀ s1 : State, load cfg img pid s = some s1 →
        ∃ q : Process, s1.process_list = s.process_list ++ [q] ∧
          q.page_table.length = n) ∧
      read_page cfg p mem v count = some (p, (mem.drop a).take count) ∧
      write_page cfg p mem v buf count
        = some (p, mem.take a ++ buf.take count ++ mem.drop (a + count)) := by
  have hps0 : cfg.PAGE_SIZE ≠ 0 := Nat.pos_iff_ne_zero.mp hps
  refine ⟨?_, ?_⟩
  · obtain ⟨n, h1, h2, h3⟩ := load_new_process_table pid hps hsize hrange
    refine ⟨n, h1, h2, ⟨load_new_process cfg { img with num_inst := 0 } pid, ?_, h3⟩, h3,
      ?_, ?_⟩
    · unfold load
      rw [if_neg hps0]
      rfl
    · unfold load
      rw [if_neg hps0]
      cases load_loop cfg img.lines img.num_inst.toNat 0 (load_new_process cfg img pid)
          s.phy_memory none with
      | none => rfl
      | some r => rfl
    · intro s1 hload
      obtain ⟨q, mem1, hloop, hs1⟩ := load_some hload
      refine ⟨q, ?_, ?_⟩
      · rw [hs1]
      · have hsame := load_loop_same _ _ _ _ _ _ _ hloop
        rw [hsame.2.2.2.2.2, h3, List.length_replicate]
  · have hpn : 0 ≤ Int.tdiv v cfg.PAGE_SIZE := Int.tdiv_nonneg hv0 (Int.ofNat_nonneg _)
    have ho0 : 0 ≤ Int.tmod v cfg.PAGE_SIZE := Int.tmod_nonneg _ hv0
    have hfp : 0 ≤ e.frame_number * (cfg.PAGE_SIZE : Int) :=
      Int.mul_nonneg hf0 (Int.ofNat_nonneg _)
    have htr := translate_valid hps0 hpn he hvalid
    have hw1 : wrap32 (e.frame_number * (cfg.PAGE_SIZE : Int))
        = e.frame_number * (cfg.PAGE_SIZE : Int) := by
      generalize e.frame_number * (cfg.PAGE_SIZE : Int) = b at hfp hint ⊢
      generalize Int.tmod v cfg.PAGE_SIZE = o at ho0 hint
      clear he htr ha hpn
      exact wrap32_of_range (by omega) (by omega)
    have hw2 : wrap32 (e.frame_number * (cfg.PAGE_SIZE : Int) + Int.tmod v cfg.PAGE_SIZE)
        = (a : Int) := by
      rw [ha]
      generalize e.frame_number * (cfg.PAGE_SIZE : Int) = b at hfp hint ⊢
      generalize Int.tmod v cfg.PAGE_SIZE = o at ho0 hint ⊢
      clear he htr ha hpn hw1
      exact wrap32_of_range (by omega) (by omega)
    rw [hw1, hw2] at htr
    exact ⟨read_page_of_translate htr (Int.ofNat_nonneg a) hle,
      write_page_of_translate htr hcount (Int.ofNat_nonneg a) hle⟩

/-- C12 at a concrete input: `load` of the image `imgA` of 16 bytes with pages of 16
bytes returns `stateA`, whose process has a table of one entry, and `load` of `imgA`
without its instructions returns with the one entry frame_number = -1, valid = 0; an
access of two bytes at address 8 of the valid page 0 of `procA`, bound to frame 0, goes
to the physical address 8. -/
theorem translation_arithmetic_witness :
    (load cfgT imgA 0 stateT = some stateA ∧
      stateA.process_list.map (fun q => q.page_table.length) = [1] ∧
      (load cfgT { imgA with num_inst := 0 } 0 stateT).map
          (fun s1 => s1.process_list.map fun q => q.page_table)
        = some [[{ frame_number := -1, valid := 0 }]]) ∧
      (∃ n : Nat, ((n : Int) - 1) * cfgT.PAGE_SIZE < imgA.size ∧
        imgA.size ≤ (n : Int) * cfgT.PAGE_SIZE ∧
        (∃ q0 : Process,
          load cfgT { imgA with num_inst := 0 } 0 stateT
            = some { stateT with process_list := stateT.process_list ++ [q0] } ∧
          q0.page_table = List.replicate n { frame_number := -1, valid := 0 }) ∧
        (load_new_process cfgT imgA 0).page_table
          = List.replicate n { frame_number := -1, valid := 0 } ∧
        load cfgT imgA 0 stateT
          = (load_loop cfgT imgA.lines imgA.num_inst.toNat 0 (load_new_process cfgT imgA 0)
              stateT.phy_memory none).map
            (fun r => { stateT with phy_memory := r.2,
                                    process_list := stateT.process_list ++ [r.1] }) ∧
        ∀ s1 : State, load cfgT imgA 0 stateT = some s1 →
          ∃ q : Process, s1.process_list = stateT.process_list ++ [q] ∧
            q.page_table.length = n) ∧
      read_page cfgT procA stateA.phy_memory 8 2
        = some (procA, (stateA.phy_memory.drop 8).take 2) ∧
      write_page cfgT procA stateA.phy_memory 8 [1, 2] 2
        = some (procA, stateA.phy_memory.take 8 ++ [1, 2].take 2
            ++ stateA.phy_memory.drop (8 + 2)) := by
  refine ⟨?_, translation_arithmetic cfgT imgA 0 stateT procA stateA.phy_memory 8 [1, 2]
    2 8 { frame_number := 0, valid := 1 } ?_ ?_ ?_ ?_ ?_ ?_ ?_ ?_ ?_ ?_ ?_⟩
  all_goals decide

/-- C13 (fault handler stub): with at least one frame, an access at `v >= 0` to a page
whose entry is invalid returns, from `read_page` and from `write_page`, with that entry
set to frame_number = 0 and valid = 1 and the bytes copied at offset v % PAGE_SIZE of
frame 0, whatever the other entries and processes hold; every other entry is as before.
And in every reachable state every valid page table entry has frame_number 0. -/
theorem fault_binds_frame_zero (cfg : Config) (ops : OpSemantics) (p : Process)
    (mem : List Byte) (v : Int) (buf : List Byte) (count : Nat) (e : PageTableEntry)
    (hps : 0 < cfg.PAGE_SIZE) (hnp : 0 < cfg.NUM_PAGES)
    (hint : cfg.NUM_PAGES * cfg.PAGE_SIZE < 2147483648) (hv0 : 0 ≤ v)
    (he : p.page_table[(Int.tdiv v cfg.PAGE_SIZE).toNat]? = some e) (hinvalid : e.valid = 0)
    (hcount : count ≤ buf.length)
    (hle : (Int.tmod v cfg.PAGE_SIZE).toNat + count ≤ mem.length) :
    read_page cfg p mem v count = some
        ({ p with
            page_table := p.page_table.set (Int.tdiv v cfg.PAGE_SIZE).toNat fault_entry },
          (mem.drop (Int.tmod v cfg.PAGE_SIZE).toNat).take count) ∧
      write_page cfg p mem v buf count = some
        ({ p with
            page_table := p.page_table.set (Int.tdiv v cfg.PAGE_SIZE).toNat fault_entry },
          mem.take (Int.tmod v cfg.PAGE_SIZE).toNat ++ buf.take count
            ++ mem.drop ((Int.tmod v cfg.PAGE_SIZE).toNat + count)) ∧
      (∀ i : Nat, i ≠ (Int.tdiv v cfg.PAGE_SIZE).toNat →
        (p.page_table.set (Int.tdiv v cfg.PAGE_SIZE).toNat fault_entry)[i]?
          = p.page_table[i]?) ∧
      ∀ s : State, Reachable cfg ops s → ∀ q ∈ s.process_list, ∀ e1 ∈ q.page_table,
        e1.valid ≠ 0 → e1.frame_number = 0 := by
  have hps0 : cfg.PAGE_SIZE ≠ 0 := Nat.pos_iff_ne_zero.mp hps
  have hpn : 0 ≤ Int.tdiv v cfg.PAGE_SIZE := Int.tdiv_nonneg hv0 (Int.ofNat_nonneg _)
  have ho0 : 0 ≤ Int.tmod v cfg.PAGE_SIZE := Int.tmod_nonneg _ hv0
  have htr := translate_invalid hps0 hnp hpn he hinvalid
  have hfit : Int.tmod v cfg.PAGE_SIZE + (0 : Nat) ≤ cfg.PAGE_SIZE := by
    have ho1 : Int.tmod v cfg.PAGE_SIZE < cfg.PAGE_SIZE :=
      Int.tmod_lt_of_pos _ (Int.ofNat_lt.mpr hps)
    generalize Int.tmod v cfg.PAGE_SIZE = o at ho1 ⊢
    clear he htr hpn hle ho0
    omega
  have hnp2 : (0 : Int) < (cfg.NUM_PAGES : Int) := Int.ofNat_lt.mpr hnp
  obtain ⟨h1, -, -⟩ := phys_addr_in_pool (le_refl (0 : Int)) hnp2 ho0 hfit hint
  rw [h1, Int.zero_mul, Int.zero_add] at htr
  refine ⟨read_page_of_translate htr ho0 hle, write_page_of_translate htr hcount ho0 hle,
    ?_, ?_⟩
  · intro i hi
    exact List.getElem?_set_ne (Ne.symm hi)
  · intro s hs q hq e1 he1 hv
    exact (reachable_ok hs q hq e1 he1 hv).1

/-- C13 at a concrete input: a read and a write of three bytes at address 4 of the
untouched page 0 of `procT`. -/
theorem fault_binds_frame_zero_witness :
    read_page cfgT procT stateT.phy_memory 4 3 = some
        ({ procT with page_table := procT.page_table.set 0 fault_entry },
          (stateT.phy_memory.drop 4).take 3) ∧
      write_page cfgT procT stateT.phy_memory 4 [1, 2, 3] 3 = some
        ({ procT with page_table := procT.page_table.set 0 fault_entry },
          stateT.phy_memory.take 4 ++ [1, 2, 3].take 3 ++ stateT.phy_memory.drop (4 + 3)) ∧
      (∀ i : Nat, i ≠ 0 →
        (procT.page_table.set 0 fault_entry)[i]? = procT.page_table[i]?) ∧
      ∀ s : State, Reachable cfgT opsT s → ∀ q ∈ s.process_list, ∀ e1 ∈ q.page_table,
        e1.valid ≠ 0 → e1.frame_number = 0 := by
  refine fault_binds_frame_zero cfgT opsT procT stateT.phy_memory 4 [1, 2, 3] 3
    { frame_number := -1, valid := 0 } ?_ ?_ ?_ ?_ ?_ ?_ ?_ ?_
  all_goals decide

/-- C14 (register isolation of a step): with register files of `MAX_REGISTERS` registers,
when the fetch at `pc` returns an instruction and this instruction, run on the saved
registers of the process, leaves the register file `regs1` and the memory `mem1`, then
`execute` returns, and returns the same from any content of the global register file
(that of `s` and any `other`): the restore loop overwrites the whole register file.  The
result is the value of the pc test, the process with `regs1` as its saved registers and
the globals with `regs1` as the register file (after the call temp_reg_set equals
register_set) and `mem1` as the memory. -/
theorem register_isolation (cfg : Config) (ops : OpSemantics) (p p2 p3 : Process)
    (s : State) (instruction : List Byte) (opcode : Byte) (regs1 : List Int)
    (mem1 : List Byte) (other : List Int)
    (hsaved : p.temp_reg_set.length = cfg.MAX_REGISTERS)
    (hregs : s.register_set.length = cfg.MAX_REGISTERS)
    (hother : other.length = cfg.MAX_REGISTERS)
    (hfetch : read_page cfg p s.phy_memory p.pc cfg.INSTRUCTION_SIZE
      = some (p2, instruction))
    (hop : instruction.head? = some opcode)
    (hrun : dispatch cfg ops opcode instruction
        { p2 with pc := wrap32 (p2.pc + cfg.INSTRUCTION_SIZE) } p.temp_reg_set s.phy_memory
      = some (p3, regs1, mem1)) :
    execute cfg ops p s
        = some (if wrap32 (p3.num_inst * cfg.INSTRUCTION_SIZE) ≤ p3.pc then 1 else 0,
            { p3 with temp_reg_set := regs1 },
            { s with register_set := regs1, phy_memory := mem1 }) ∧
      execute cfg ops p { s with register_set := other }
        = some (if wrap32 (p3.num_inst * cfg.INSTRUCTION_SIZE) ≤ p3.pc then 1 else 0,
            { p3 with temp_reg_set := regs1 },
            { s with register_set := regs1, phy_memory := mem1 }) := by
  have hc1 := copy_registers_full hsaved hregs
  have hc2 := copy_registers_full hsaved hother
  obtain ⟨a, htr, -⟩ := read_page_some hfetch
  have hsame2 := translate_same htr
  obtain ⟨hsame3, hlen⟩ := dispatch_same hrun
  unfold SameButPageTable at hsame2 hsame3
  simp only at hsame3
  rw [hsaved] at hlen
  have h3 : p3.temp_reg_set.length = cfg.MAX_REGISTERS := by
    rw [hsame3.2.2.2.2.1, hsame2.2.2.2.2.1, hsaved]
  have hc3 := copy_registers_full hlen h3
  constructor
  · unfold execute
    simp only [hc1, hfetch, hop, hrun, hc3]
  · unfold execute
    simp only [hc2, hfetch, hop, hrun, hc3]

/-- C14 at a concrete input: the process of `imgA` at pc = 8 with the saved registers 3
and 4 executes `A` (register 1 := register 0 + register 1) in the globals `stateA`.
From the global register file 0, 0 and from 7, 9 alike it returns 1 with the saved
registers 3 and 7, which are also the global register file. -/
theorem register_isolation_witness :
    (execute cfgT opsT { procA with pc := 8, temp_reg_set := [3, 4] } stateA
        = some (1, { procA with pc := 16, temp_reg_set := [3, 7] },
            { stateA with register_set := [3, 7] }) ∧
      execute cfgT opsT { procA with pc := 8, temp_reg_set := [3, 4] }
          { stateA with register_set := [7, 9] }
        = some (1, { procA with pc := 16, temp_reg_set := [3, 7] },
            { stateA with register_set := [3, 7] })) ∧
      execute cfgT opsT { procA with pc := 8, temp_reg_set := [3, 4] } stateA
        = some (if wrap32 (({ procA with pc := 16, temp_reg_set := [3, 4] } : Process).num_inst
              * cfgT.INSTRUCTION_SIZE)
              ≤ ({ procA with pc := 16, temp_reg_set := [3, 4] } : Process).pc then 1 else 0,
            { ({ procA with pc := 16, temp_reg_set := [3, 4] } : Process) with
              temp_reg_set := [3, 7] },
            { stateA with register_set := [3, 7], phy_memory := stateA.phy_memory }) ∧
      execute cfgT opsT { procA with pc := 8, temp_reg_set := [3, 4] }
          { stateA with register_set := [7, 9] }
        = some (if wrap32 (({ procA with pc := 16, temp_reg_set := [3, 4] } : Process).num_inst
              * cfgT.INSTRUCTION_SIZE)
              ≤ ({ procA with pc := 16, temp_reg_set := [3, 4] } : Process).pc then 1 else 0,
            { ({ procA with pc := 16, temp_reg_set := [3, 4] } : Process) with
              temp_reg_set := [3, 7] },
            { stateA with register_set := [3, 7], phy_memory := stateA.phy_memory }) := by
  refine ⟨?_, register_isolation cfgT opsT { procA with pc := 8, temp_reg_set := [3, 4] }
    { procA with pc := 8, temp_reg_set := [3, 4] }
    { procA with pc := 16, temp_reg_set := [3, 4] } stateA
    ((stateA.phy_memory.drop 8).take 8) 65 [3, 7] stateA.phy_memory [7, 9]
    ?_ ?_ ?_ ?_ ?_ ?_⟩
  all_goals decide

/-- C15 (load-then-fetch round trip) does not hold of the code: `load` writes the first
instruction `M 1` of `imgA` at virtual address 0 of process 0, the later `load` of
`imgB` writes its instruction `S` over it in frame 0, and the fetch of the first step of
process 0 returns `S`, NUL, `1`, NUL, which does not begin with `M 1`. -/
theorem fetch_after_two_loads_returns_other_instruction :
    (load cfgT imgA 0 stateT).map (fun s => s.phy_memory.take 4) = some [77, 32, 49, 0] ∧
      (load cfgT imgA 0 stateT).bind (load cfgT imgB 1) = some stateAB ∧
      imgA.lines[0]? = some [77, 32, 49] ∧
      read_page cfgT procA stateAB.phy_memory (0 * cfgT.INSTRUCTION_SIZE) cfgT.INSTRUCTION_SIZE
        = some (procA, [83, 0, 49, 0, 0, 0, 0, 0]) ∧
      ([83, 0, 49, 0, 0, 0, 0, 0] : List Byte).take 4 ≠ [77, 32, 49, 0] := by
  decide

/-- C16 does not hold of the code as it stands: in the run on the processes 0 (two
instructions) and 1 (one instruction), process 1 finishes in the first pass while it is
not the head of the list, so its node is freed and then read for its `next` field.  With
the value the field had, the calls of `execute` are 0, 1, 0. -/
theorem simulate_reads_freed_node :
    (load cfgT imgA 0 stateT).bind (load cfgT imgB 1) = some stateAB ∧
      (simulate cfgT opsT 2 (Sim.start stateAB)).map
          (fun sim => (sim.events, sim.freed_node_read))
        = some ([{ pid := 0, finish := 0 }, { pid := 1, finish := 1 },
            { pid := 0, finish := 1 }], true) := by
  decide

/-- C17 (frame of read_page and write_page): `read_page` only reads physical memory (a
read touch returns the memory it was given); `read_page` and `write_page` leave pid,
size, num_inst, pc and saved registers of the process as they are, change no page table
entry other than the one of page virt_addr / PAGE_SIZE, and change nothing of the process
when that entry is valid; `write_page` keeps the length of physical memory and every byte
outside the `count` bytes from the translated physical address `a`.  Other processes are
no argument of either function. -/
theorem access_frame (cfg : Config) (p p1 p2 : Process) (mem mem2 : List Byte) (v : Int)
    (buf out : List Byte) (count : Nat)
    (hr : read_page cfg p mem v count = some (p1, out))
    (hw : write_page cfg p mem v buf count = some (p2, mem2)) :
    touch cfg p mem v (.read count) = some (p1, mem) ∧
      SameButPageTable p p1 ∧ SameButPageTable p p2 ∧
      (∀ i : Nat, i ≠ (Int.tdiv v cfg.PAGE_SIZE).toNat →
        p1.page_table[i]? = p.page_table[i]? ∧ p2.page_table[i]? = p.page_table[i]?) ∧
      (∀ e, p.page_table[(Int.tdiv v cfg.PAGE_SIZE).toNat]? = some e → e.valid ≠ 0 →
        p1 = p ∧ p2 = p) ∧
      ∃ a : Int, translate cfg p v = some (p2, a) ∧ 0 ≤ a ∧ mem2.length = mem.length ∧
        ∀ i : Nat, (i < a.toNat ∨ a.toNat + count ≤ i) → mem2[i]? = mem[i]? := by
  obtain ⟨a1, htr1, -⟩ := read_page_some hr
  obtain ⟨a2, htr2, hcount, hmw⟩ := write_page_some hw
  obtain ⟨f1, g1⟩ := translate_frame htr1
  obtain ⟨f2, g2⟩ := translate_frame htr2
  obtain ⟨h0, hlen, hout⟩ := mem_write_outside hmw
  have hl : (buf.take count).length = count := by
    rw [List.length_take]
    omega
  rw [hl] at hout
  refine ⟨?_, translate_same htr1, translate_same htr2, fun i hi => ⟨f1 i hi, f2 i hi⟩,
    fun e he hv => ⟨g1 e he hv, g2 e he hv⟩, a2, htr2, h0, hlen, hout⟩
  simp only [touch, hr]

/-- C17 at a concrete input: a read and a write of three bytes at address 4 of the
untouched page 0 of `procT`. -/
theorem access_frame_witness :
    touch cfgT procT stateT.phy_memory 4 (.read 3) = some (touched 0, stateT.phy_memory) ∧
      SameButPageTable procT (touched 0) ∧ SameButPageTable procT (touched 0) ∧
      (∀ i : Nat, i ≠ (Int.tdiv 4 cfgT.PAGE_SIZE).toNat →
        (touched 0).page_table[i]? = procT.page_table[i]? ∧
          (touched 0).page_table[i]? = procT.page_table[i]?) ∧
      (∀ e, procT.page_table[(Int.tdiv 4 cfgT.PAGE_SIZE).toNat]? = some e → e.valid ≠ 0 →
        touched 0 = procT ∧ touched 0 = procT) ∧
      ∃ a : Int, translate cfgT procT 4 = some (touched 0, a) ∧ 0 ≤ a ∧
        ([0, 0, 0, 0, 1, 2, 3] ++ List.replicate 57 0 : List Byte).length
          = stateT.phy_memory.length ∧
        ∀ i : Nat, (i < a.toNat ∨ a.toNat + 3 ≤ i) →
          ([0, 0, 0, 0, 1, 2, 3] ++ List.replicate 57 0 : List Byte)[i]?
            = stateT.phy_memory[i]? := by
  refine access_frame cfgT procT (touched 0) (touched 0) stateT.phy_memory
    ([0, 0, 0, 0, 1, 2, 3] ++ List.replicate 57 0) 4 [1, 2, 3] [0, 0, 0] 3 ?_ ?_
  all_goals decide

end Vmsim
